import Mathlib

/-!
Shallow embedding of the defender-game core (TypeScript sources) in Lean 4.

Numeric conventions: JavaScript numbers are modelled as `ℚ` where the code
performs only field arithmetic and comparisons (health, gold, damage, wave
counts), and as `ℝ` where `Math.sqrt` / `Math.atan2` Euclidean geometry is
involved (positions, distances, headings).
-/

namespace Defender

/-! ## Utilities.ts -/

/-- Euclidean distance, from `src/utils/Utilities.ts` `distance`. -/
noncomputable def distance (x1 y1 x2 y2 : ℝ) : ℝ :=
  Real.sqrt ((x2 - x1) * (x2 - x1) + (y2 - y1) * (y2 - y1))

/-- Vector normalization, from `src/utils/Utilities.ts` `normalize`:
returns the zero vector when the length is zero. -/
noncomputable def normalize (x y : ℝ) : ℝ × ℝ :=
  if Real.sqrt (x * x + y * y) = 0 then (0, 0)
  else (x / Real.sqrt (x * x + y * y), y / Real.sqrt (x * x + y * y))

/-- `Math.atan2 y x`, modelled by the argument of the complex number `x + y·i`
(both have range `(-π, π]` and `atan2 0 0 = 0`). -/
noncomputable def atan2 (y x : ℝ) : ℝ := Complex.arg ⟨x, y⟩

/-! ## Economy.ts (src/unnamed/part_004) -/

namespace Economy

/-- The mutable state of `Economy`: the private `gold` field. -/
structure State where
  gold : ℚ
  deriving DecidableEq

/-- `Economy.addGold`: no-op when `amount <= 0`, otherwise adds. -/
def addGold (s : State) (amount : ℚ) : State :=
  if amount ≤ 0 then s else { s with gold := s.gold + amount }

/-- `Economy.spendGold`: fails (no mutation) when `amount <= 0` or
`gold < amount`; otherwise deducts and returns `true`. -/
def spendGold (s : State) (amount : ℚ) : Bool × State :=
  if amount ≤ 0 then (false, s)
  else if s.gold < amount then (false, s)
  else (true, { s with gold := s.gold - amount })

/-- `Economy.setGold`: stores `Math.max(0, amount)`. -/
def setGold (s : State) (amount : ℚ) : State :=
  { s with gold := max 0 amount }

/-- A balance-mutating operation of the `Economy` class. -/
inductive Op
  | add (amount : ℚ)
  | spend (amount : ℚ)
  | set (amount : ℚ)

/-- Apply one operation to the economy state (for `spendGold` the returned
boolean is discarded, as callers that only mutate do). -/
def applyOp (s : State) : Op → State
  | Op.add a => addGold s a
  | Op.spend a => (spendGold s a).2
  | Op.set a => setGold s a

/-- Run a sequence of economy operations left to right. -/
def runOps (s : State) (ops : List Op) : State := ops.foldl applyOp s

end Economy

/-! ## PricingBalance.ts (src/unnamed/part_002): tower balance data -/

/-- `TOWER_UPGRADE_BONUSES.damageIncrease`: documented as
"50% damage increase per level". -/
def TOWER_UPGRADE_BONUSES_damageIncrease : ℚ := 1/2

/-- `getTowerStatsAtLevel` restricted to the damage stat:
`baseDamage * (1 + damageIncrease * (level - 1))`. -/
def getTowerStatsAtLevel_damage (baseDamage : ℚ) (level : ℚ) : ℚ :=
  baseDamage * (1 + TOWER_UPGRADE_BONUSES_damageIncrease * (level - 1))

/-! ## TowerBase.ts -/

namespace TowerBase

/-- The stat-relevant state of a `TowerBase`: its level together with the
kind's base stats (damage/range/fireRate bases and `maxLevel`). -/
structure Tower where
  level : ℚ
  maxLevel : ℚ
  baseDamage : ℚ
  baseRange : ℚ
  baseFireRate : ℚ
  damage : ℚ
  range : ℚ
  fireRate : ℚ
  deriving DecidableEq

/-- `TowerBase.updateStats`: recomputes derived stats from the level
(`levelMultiplier = 1 + (level - 1) * 0.3`, range `0.15`, rate `0.2`). -/
def updateStats (t : Tower) : Tower :=
  let levelMultiplier := 1 + (t.level - 1) * (3/10)
  { t with
    damage := t.baseDamage * levelMultiplier
    range := t.baseRange * (1 + (t.level - 1) * (15/100))
    fireRate := t.baseFireRate * (1 + (t.level - 1) * (2/10)) }

/-- `TowerBase.upgrade`: fails at `maxLevel`, otherwise increments the level
and recomputes the stats. -/
def upgrade (t : Tower) : Bool × Tower :=
  if t.maxLevel ≤ t.level then (false, t)
  else (true, updateStats { t with level := t.level + 1 })

/-- A freshly constructed tower (the constructor calls `updateStats` at
level 1). -/
def mkTower (baseDamage baseRange baseFireRate maxLevel : ℚ) : Tower :=
  updateStats
    { level := 1, maxLevel := maxLevel, baseDamage := baseDamage,
      baseRange := baseRange, baseFireRate := baseFireRate,
      damage := 0, range := 0, fireRate := 0 }

/-- The arrow tower of `TOWER_STATS` (`baseDamage 15`, `maxLevel 4`). -/
def arrowTower : Tower := mkTower 15 150 1 4

end TowerBase

/-! ## EnemyBase.ts (src/unnamed/part_003) -/

namespace EnemyBase

/-- `EnemyState` from EnemyBase.ts. -/
inductive EnemyState
  | spawning
  | moving
  | dying
  | dead
  deriving DecidableEq

/-- Damage types accepted by `takeDamage`. -/
inductive DamageType
  | physical
  | magic
  deriving DecidableEq

/-- Status effect kinds from the `StatusEffect` interface. -/
inductive EffectKind
  | slow
  | poison
  | burn
  | stun
  deriving DecidableEq

/-- `StatusEffect` record (durations and timestamps in milliseconds). -/
structure StatusEffect where
  kind : EffectKind
  value : ℚ
  duration : ℚ
  tickRate : Option ℚ
  lastTick : Option ℚ
  deriving DecidableEq

/-- The combat-relevant state of an `EnemyBase`.

`id` stands for the object identity of the Phaser container (the code
distinguishes enemies by reference; the spec speaks of ids). `x`, `y` is the
container position. `progress` is the value `getPathProgress()` reports
(`pathSystem.getProgress(pathFollower)`), carried as a field here because the
targeting code treats it as an opaque ordered value. -/
structure Enemy where
  id : ℕ
  x : ℝ
  y : ℝ
  maxHP : ℚ
  currentHP : ℚ
  armor : ℚ
  resist : ℚ
  enemyState : EnemyState
  statusEffects : List StatusEffect
  progress : ℝ

/-- `EnemyBase.isAlive`: true exactly in the `MOVING` state. -/
def isAlive (e : Enemy) : Bool := e.enemyState = EnemyState.moving

/-- `EnemyBase.getCurrentHP` (added per IMPLEMENTATION_NOTES.md; returns
`currentHP`). -/
def getCurrentHP (e : Enemy) : ℚ := e.currentHP

/-- `EnemyBase.getPathProgress`. -/
def getPathProgress (e : Enemy) : ℝ := e.progress

/-- `EnemyBase.takeDamage`: no-op returning `false` outside `MOVING`;
physical damage is `max(1, amount - armor)`, magic damage is
`amount * (1 - resist)`; the result is subtracted from `currentHP` (with no
clamping), and if the new HP is `<= 0` the enemy dies (state `DYING`) and
`true` is returned. -/
def takeDamage (e : Enemy) (amount : ℚ) (damageType : DamageType) : Enemy × Bool :=
  if e.enemyState ≠ EnemyState.moving then (e, false)
  else
    let finalDamage :=
      match damageType with
      | DamageType.physical => max 1 (amount - e.armor)
      | DamageType.magic => amount * (1 - e.resist)
    let hp := e.currentHP - finalDamage
    if hp ≤ 0 then ({ e with currentHP := hp, enemyState := EnemyState.dying }, true)
    else ({ e with currentHP := hp }, false)

/-- `EnemyBase.addStatusEffect`: if an effect of the same kind exists, only
its remaining duration is updated to the maximum of the two durations;
otherwise the new effect is appended with `lastTick` set to the current time
(`Date.now()`, passed here as `now`). -/
def addStatusEffect (e : Enemy) (eff : StatusEffect) (now : ℚ) : Enemy :=
  match e.statusEffects.findIdx? (fun ex => ex.kind = eff.kind) with
  | some i =>
      { e with statusEffects :=
          (e.statusEffects.modify
            (fun ex => { ex with duration := max ex.duration eff.duration }) i) }
  | none =>
      { e with statusEffects := e.statusEffects ++ [{ eff with lastTick := some now }] }

/-- A wave-1 runner: `getScaledEnemyStats('runner', 1)` gives
`maxHP 50, armor 0, resist 0` (scaling multipliers are all 1 at wave 1). -/
def runner50 : Enemy :=
  { id := 0, x := 0, y := 0, maxHP := 50, currentHP := 50, armor := 0,
    resist := 0, enemyState := EnemyState.moving, statusEffects := [],
    progress := 0 }

end EnemyBase

/-! ## WaveManager.ts -/

namespace WaveManager

/-- `CONFIG.TOTAL_WAVES` from Config.ts. -/
def TOTAL_WAVES : ℤ := 20

/-- Enemy kinds of `ENEMY_STATS`. -/
inductive EnemyKind
  | runner
  | tank
  | boss
  deriving DecidableEq

/-- One group of a wave composition: `{type, count, interval}` (the interval
is in seconds). -/
structure WaveGroup where
  kind : EnemyKind
  count : ℤ
  interval : ℚ
  deriving DecidableEq

/-- `WaveComposition` from PricingBalance.ts. -/
structure WaveComposition where
  wave : ℤ
  enemies : List WaveGroup
  reward : ℤ
  deriving DecidableEq

/-- `generateWaveComposition` from PricingBalance.ts: boss waves every 5th
wave with `Math.floor` counts, otherwise runners scaling with
`5 + Math.floor(wave * 1.5)` plus tanks `Math.floor(wave / 2)`.
`Math.floor` on integer-valued expressions is written with `Int.fdiv`
(floor division). -/
def generateWaveComposition (waveNumber : ℤ) : WaveComposition :=
  if waveNumber % 5 = 0 then
    { wave := waveNumber,
      enemies :=
        [ { kind := EnemyKind.runner, count := Int.fdiv waveNumber 2, interval := 3/2 },
          { kind := EnemyKind.tank, count := Int.fdiv waveNumber 3, interval := 5/2 },
          { kind := EnemyKind.boss, count := Int.fdiv waveNumber 5, interval := 5 } ],
      reward := 50 + waveNumber * 10 }
  else
    { wave := waveNumber,
      enemies :=
        [ { kind := EnemyKind.runner, count := 5 + Int.fdiv (waveNumber * 3) 2, interval := 1 },
          { kind := EnemyKind.tank, count := Int.fdiv waveNumber 2, interval := 2 } ],
      reward := 25 + waveNumber * 5 }

/-- The `WaveState` interface. -/
structure WaveState where
  currentWave : ℤ
  isActive : Bool
  enemiesRemaining : ℤ
  enemiesSpawned : ℤ
  totalEnemies : ℤ
  deriving DecidableEq

/-- The mutable fields of `WaveManager` relevant to scheduling (spawn timers
and callbacks are external effects and not part of the state transition). -/
structure State where
  currentWave : ℤ
  waveState : WaveState
  currentComposition : Option WaveComposition
  deriving DecidableEq

/-- The freshly constructed `WaveManager` state. -/
def initial : State :=
  { currentWave := 0,
    waveState :=
      { currentWave := 0, isActive := false, enemiesRemaining := 0,
        enemiesSpawned := 0, totalEnemies := 0 },
    currentComposition := none }

/-- `WaveManager.startNextWave`: returns `false` untouched while a wave is
active; otherwise increments `currentWave` first, and only then checks
exhaustion (`currentWave > TOTAL_WAVES` leaves the incremented counter
behind and returns `false`); otherwise installs the generated composition
and activates the wave. -/
def startNextWave (s : State) : Bool × State :=
  if s.waveState.isActive then (false, s)
  else
    let cw := s.currentWave + 1
    if TOTAL_WAVES < cw then (false, { s with currentWave := cw })
    else
      let comp := generateWaveComposition cw
      let totalEnemies := (comp.enemies.map (fun g => g.count)).sum
      (true,
        { currentWave := cw,
          waveState :=
            { currentWave := cw, isActive := true,
              enemiesRemaining := totalEnemies, enemiesSpawned := 0,
              totalEnemies := totalEnemies },
          currentComposition := some comp })

/-- A `WaveManager` state that has just finished the final wave: idle with
`currentWave = TOTAL_WAVES` (all waves exhausted). -/
def exhaustedState : State :=
  { currentWave := 20,
    waveState :=
      { currentWave := 20, isActive := false, enemiesRemaining := 0,
        enemiesSpawned := 33, totalEnemies := 33 },
    currentComposition := some (generateWaveComposition 20) }

end WaveManager

/-! ## TargetingSystem.ts -/

namespace TargetingSystem

open EnemyBase

/-- `TargetingMode` enum. -/
inductive TargetingMode
  | first
  | closest
  | strongest
  | weakest
  deriving DecidableEq

/-- The in-range filter of `findTarget`:
`distance(towerX, towerY, enemy.x, enemy.y) <= range && enemy.isAlive()`. -/
noncomputable def inRangeEnemies (towerX towerY range : ℝ) (enemies : List Enemy) :
    List Enemy :=
  enemies.filter (fun e => distance towerX towerY e.x e.y ≤ range ∧ isAlive e)

/-- `TargetingSystem.findFirst`: `reduce` keeping the enemy with strictly
greater `getPathProgress`, seeded with the first element. -/
noncomputable def findFirst (a : Enemy) (enemies : List Enemy) : Enemy :=
  enemies.foldl
    (fun best e => if getPathProgress best < getPathProgress e then e else best) a

/-- `TargetingSystem.findClosest`. -/
noncomputable def findClosest (x y : ℝ) (a : Enemy) (enemies : List Enemy) : Enemy :=
  enemies.foldl
    (fun best e =>
      if distance x y e.x e.y < distance x y best.x best.y then e else best) a

/-- `TargetingSystem.findStrongest`. -/
noncomputable def findStrongest (a : Enemy) (enemies : List Enemy) : Enemy :=
  enemies.foldl
    (fun best e => if getCurrentHP best < getCurrentHP e then e else best) a

/-- `TargetingSystem.findWeakest`. -/
noncomputable def findWeakest (a : Enemy) (enemies : List Enemy) : Enemy :=
  enemies.foldl
    (fun best e => if getCurrentHP e < getCurrentHP best then e else best) a

/-- `TargetingSystem.findTarget`: filter to in-range alive enemies, return
`null` when empty, otherwise dispatch to the per-mode `reduce` (seeded with
`inRange[0]` and folding over the whole filtered array, as
`Array.prototype.reduce` with an initial value does). -/
noncomputable def findTarget (towerX towerY range : ℝ) (enemies : List Enemy)
    (mode : TargetingMode) : Option Enemy :=
  let inRange := inRangeEnemies towerX towerY range enemies
  match inRange with
  | [] => none
  | a :: _ =>
    some (match mode with
      | TargetingMode.first => findFirst a inRange
      | TargetingMode.closest => findClosest towerX towerY a inRange
      | TargetingMode.strongest => findStrongest a inRange
      | TargetingMode.weakest => findWeakest a inRange)

/-- The strict preference used by mode `m` at tower position `(tx, ty)`:
`better m tx ty e b` holds when the code's `reduce` step would replace the
running best `b` by the candidate `e`. -/
def better (m : TargetingMode) (tx ty : ℝ) (e b : Enemy) : Prop :=
  match m with
  | TargetingMode.first => getPathProgress b < getPathProgress e
  | TargetingMode.closest => distance tx ty e.x e.y < distance tx ty b.x b.y
  | TargetingMode.strongest => getCurrentHP b < getCurrentHP e
  | TargetingMode.weakest => getCurrentHP e < getCurrentHP b

/-- Tie-break counterexample data: two identical full-HP runners sitting at
the tower position, listed in decreasing id order. -/
def tieEnemyA : Enemy :=
  { id := 2, x := 0, y := 0, maxHP := 50, currentHP := 50, armor := 0,
    resist := 0, enemyState := EnemyState.moving, statusEffects := [],
    progress := 0 }

/-- Second tie-break enemy, with the smaller id. -/
def tieEnemyB : Enemy :=
  { id := 1, x := 0, y := 0, maxHP := 50, currentHP := 50, armor := 0,
    resist := 0, enemyState := EnemyState.moving, statusEffects := [],
    progress := 0 }

end TargetingSystem

/-! ## DamageSystem.ts -/

namespace DamageSystem

open EnemyBase

/-- One iteration of the inner search of `applyChainLightning`: skip
already-hit (`hitEnemies.has`) or dead enemies, and replace the running
nearest when this enemy is strictly closer to the current source. -/
noncomputable def findStep (hit : List ℕ) (sx sy : ℝ)
    (acc : Option (ℕ × EnemyBase.Enemy) × ℝ) (p : ℕ × EnemyBase.Enemy) :
    Option (ℕ × EnemyBase.Enemy) × ℝ :=
  if p.1 ∈ hit ∨ ¬ isAlive p.2 then acc
  else
    if distance sx sy p.2.x p.2.y < acc.2 then (some p, distance sx sy p.2.x p.2.y)
    else acc

/-- The inner search of `applyChainLightning`: scan `enemies` (with their
array indices standing for object identity), skipping already-hit or dead
ones, tracking the strictly nearest enemy to the current source with the
running bound initialized to `chainRange = 150`. Returns the found
index/enemy pair and its distance. -/
noncomputable def findNearestUnhit (enemies : List EnemyBase.Enemy) (hit : List ℕ)
    (sx sy : ℝ) : Option (ℕ × EnemyBase.Enemy) × ℝ :=
  enemies.enum.foldl (findStep hit sx sy) (none, 150)

/-- The hop loop of `applyChainLightning`: at hop `i` the found nearest
enemy takes `chainDamage * 0.9 ^ i` as magic damage, joins the hit set, and
becomes the new source; the loop stops when no target is found or after
`maxChains` hops (`fuel`). -/
noncomputable def chainLoop (enemies : List EnemyBase.Enemy) (hit : List ℕ)
    (sx sy : ℝ) (chainDamage : ℚ) (i : ℕ) : ℕ → List EnemyBase.Enemy
  | 0 => enemies
  | fuel + 1 =>
    match (findNearestUnhit enemies hit sx sy).1 with
    | none => enemies
    | some (j, ne) =>
      let damaged := (takeDamage ne (chainDamage * (9/10) ^ i) DamageType.magic).1
      chainLoop (enemies.set j damaged) (hit ++ [j]) ne.x ne.y chainDamage (i + 1) fuel

/-- `DamageSystem.applyChainLightning`: `maxChains = Math.floor(special.value)`,
`chainDamage = baseDamage * 0.6`, hit set seeded with the source. The source
object is `source`, occupying position `sourceIdx` of `enemies` (the code
identifies enemies by object reference; the index stands for that
identity). -/
noncomputable def applyChainLightning (enemies : List EnemyBase.Enemy)
    (sourceIdx : ℕ) (source : EnemyBase.Enemy) (baseDamage value : ℚ) :
    List EnemyBase.Enemy :=
  chainLoop enemies [sourceIdx] source.x source.y (baseDamage * (6/10)) 0
    ((Int.floor value).toNat)

/-- `DamageSystem.applyDamage` specialized to a projectile whose special
effect is `chain`: the target (the object at `targetIdx`) first takes the
direct physical damage in place, then chain lightning spreads from it. -/
noncomputable def applyDamageChain (enemies : List EnemyBase.Enemy)
    (targetIdx : ℕ) (target : EnemyBase.Enemy) (damage value : ℚ) :
    List EnemyBase.Enemy :=
  applyChainLightning
    (enemies.set targetIdx (takeDamage target damage DamageType.physical).1)
    targetIdx (takeDamage target damage DamageType.physical).1 damage value

/-- The magic damage amount the code applies at hop index `i`:
`baseDamage * 0.6 * 0.9 ^ i`. -/
def chainAmt (baseDamage : ℚ) (i : ℕ) : ℚ := baseDamage * (6/10) * (9/10) ^ i

/-- The `j`-th enemy of the C5 line scenario: placed at `(j * d, 0)`,
full HP, `MOVING`. -/
noncomputable def lineEnemy (d : ℝ) (hp armor resist : ℚ) (j : ℕ) : EnemyBase.Enemy :=
  { id := j, x := j * d, y := 0, maxHP := hp, currentHP := hp, armor := armor,
    resist := resist, enemyState := EnemyState.moving, statusEffects := [],
    progress := 0 }

/-- `N` active attackers in a line spaced `d` apart. -/
noncomputable def lineEnemies (N : ℕ) (d : ℝ) (hp armor resist : ℚ) :
    List EnemyBase.Enemy :=
  (List.range N).map (lineEnemy d hp armor resist)

/-- Expected state of the line after the direct hit on enemy `0` and chain
hops onto enemies `1 .. m`: enemy `0` has taken `damage` physically, enemy
`j` (for `1 ≤ j ≤ m`) has taken `chainAmt damage (j-1)` as magic damage, all
others are untouched. -/
noncomputable def damagedLine (N : ℕ) (d : ℝ) (hp armor resist damage : ℚ)
    (m : ℕ) : List EnemyBase.Enemy :=
  (List.range N).map (fun j =>
    if j = 0 then (takeDamage (lineEnemy d hp armor resist 0) damage DamageType.physical).1
    else if j ≤ m then
      (takeDamage (lineEnemy d hp armor resist j) (chainAmt damage (j - 1))
        DamageType.magic).1
    else lineEnemy d hp armor resist j)

end DamageSystem

/-! ## Path.ts (src/unnamed/part_005) -/

namespace PathSystem

/-- `PathFollower` together with the owner position that `EnemyBase.update`
feeds back into `updateFollower` (`this.x`, `this.y`): the returned position
becomes the enemy position for the next call, so follower and position
advance together. `targetWaypoint` is represented by the invariant
`targetWaypoint = path[idx + 1]` (and `null` when `idx + 1` is past the last
waypoint), which `initializeFollower` establishes and `updateFollower`
preserves. -/
structure Follower where
  idx : ℕ
  x : ℝ
  y : ℝ
  traveled : ℝ

/-- `distToTarget` of `updateFollower`: the Euclidean distance from the
follower's current position to the target waypoint `t`. -/
noncomputable def distTo (s : Follower) (t : ℝ × ℝ) : ℝ :=
  Real.sqrt ((t.1 - s.x) * (t.1 - s.x) + (t.2 - s.y) * (t.2 - s.y))

/-- The returned `angle = Math.atan2(dy, dx)` toward the target waypoint. -/
noncomputable def angleTo (s : Follower) (t : ℝ × ℝ) : ℝ :=
  atan2 (t.2 - s.y) (t.1 - s.x)

/-- The follower state after reaching the target waypoint `t`:
`currentWaypointIndex++`, position snapped to `t`, and
`distanceTraveled += distToTarget`. -/
noncomputable def crossState (s : Follower) (t : ℝ × ℝ) : Follower :=
  ⟨s.idx + 1, t.1, t.2, s.traveled + distTo s t⟩

/-- The follower state after moving `move` toward the target `t` along the
normalized direction, with `distanceTraveled += moveDistance`. -/
noncomputable def moveState (s : Follower) (t : ℝ × ℝ) (move : ℝ) : Follower :=
  ⟨s.idx,
    s.x + (normalize (t.1 - s.x) (t.2 - s.y)).1 * move,
    s.y + (normalize (t.1 - s.x) (t.2 - s.y)).2 * move,
    s.traveled + move⟩

/-- `PathSystem.updateFollower`, parametrized directly by the per-call
movement distance `move = speed * (delta / 1000)`. The source's recursive
call passes `(remaining / speed) * 1000` as the next delta, whose move
distance is exactly `remaining`, which is what the recursion here passes
(for `speed = 0` no recursive call can occur since then `move = 0` forces
`remaining = 0`). Returns `none` when the follower reached the end of the
path (`targetWaypoint` null, i.e. `idx + 1` past the last waypoint),
otherwise the updated follower and the returned `angle`. -/
noncomputable def updFollower (wp : List (ℝ × ℝ)) (move : ℝ) (s : Follower) :
    Option (Follower × ℝ) :=
  if htg : wp.length ≤ s.idx + 1 then none
  else
    if distTo s (wp.get ⟨s.idx + 1, by omega⟩) ≤ move then
      if wp.length - 1 ≤ s.idx + 1 then none
      else
        if 0 < move - distTo s (wp.get ⟨s.idx + 1, by omega⟩) then
          updFollower wp (move - distTo s (wp.get ⟨s.idx + 1, by omega⟩))
            (crossState s (wp.get ⟨s.idx + 1, by omega⟩))
        else
          some (crossState s (wp.get ⟨s.idx + 1, by omega⟩),
            angleTo s (wp.get ⟨s.idx + 1, by omega⟩))
    else
      some (moveState s (wp.get ⟨s.idx + 1, by omega⟩) move,
        angleTo s (wp.get ⟨s.idx + 1, by omega⟩))
termination_by wp.length - s.idx
decreasing_by simp only [crossState]; omega

/-- `updateFollower` as called per tick with a speed and a delta time. -/
noncomputable def updateFollower (wp : List (ℝ × ℝ)) (s : Follower)
    (speed delta : ℝ) : Option (Follower × ℝ) :=
  updFollower wp (speed * (delta / 1000)) s

/-- Advance a follower by a sequence of per-tick deltas at a fixed speed
(the result of a finished follower stays `none`). -/
noncomputable def advanceBy (wp : List (ℝ × ℝ)) (speed : ℝ)
    (acc : Option (Follower × ℝ)) (ds : List ℝ) : Option (Follower × ℝ) :=
  ds.foldl (fun a δ => a.bind (fun r => updateFollower wp r.1 speed δ)) acc

end PathSystem

/-!
# Theorems

Helper lemmas first, then one theorem per claim (with witnesses and
counterexamples where applicable).
-/

/-- Any single economy operation preserves a non-negative balance. -/
theorem Economy.applyOp_nonneg (s : Economy.State) (op : Economy.Op)
    (h : 0 ≤ s.gold) : 0 ≤ (Economy.applyOp s op).gold := by
  cases op with
  | add a =>
    simp only [Economy.applyOp, Economy.addGold]
    split_ifs with h1
    · exact h
    · simp only []
      linarith
  | spend a =>
    simp only [Economy.applyOp, Economy.spendGold]
    split_ifs with h1 h2
    · exact h
    · exact h
    · simp only []
      linarith
  | set a =>
    simp only [Economy.applyOp, Economy.setGold]
    exact le_max_left 0 a

/-- C1: for an Active (`MOVING`) attacker, `takeDamage` with physical type
reduces `currentHP` by `max(1, amount - armor)` and with magic type by
`amount * (1 - resist)`; moreover a `maxHP = 50`, `armor = 0` runner hit with
15 physical damage has HP 35, 20, 5 after three hits and dies (`true`
returned, state `DYING`) on the fourth. -/
theorem c1_takeDamage_formulas (e : EnemyBase.Enemy) (amount : ℚ)
    (h : e.enemyState = EnemyBase.EnemyState.moving) :
    ((EnemyBase.takeDamage e amount EnemyBase.DamageType.physical).1.currentHP
        = e.currentHP - max 1 (amount - e.armor)) ∧
    ((EnemyBase.takeDamage e amount EnemyBase.DamageType.magic).1.currentHP
        = e.currentHP - amount * (1 - e.resist)) ∧
    ((EnemyBase.takeDamage EnemyBase.runner50 15
        EnemyBase.DamageType.physical).1.currentHP = 35) ∧
    ((EnemyBase.takeDamage (EnemyBase.takeDamage EnemyBase.runner50 15
        EnemyBase.DamageType.physical).1 15
        EnemyBase.DamageType.physical).1.currentHP = 20) ∧
    ((EnemyBase.takeDamage (EnemyBase.takeDamage (EnemyBase.takeDamage
        EnemyBase.runner50 15 EnemyBase.DamageType.physical).1 15
        EnemyBase.DamageType.physical).1 15
        EnemyBase.DamageType.physical).1.currentHP = 5) ∧
    ((EnemyBase.takeDamage (EnemyBase.takeDamage (EnemyBase.takeDamage
        (EnemyBase.takeDamage EnemyBase.runner50 15
        EnemyBase.DamageType.physical).1 15 EnemyBase.DamageType.physical).1 15
        EnemyBase.DamageType.physical).1 15 EnemyBase.DamageType.physical).2
        = true) ∧
    ((EnemyBase.takeDamage (EnemyBase.takeDamage (EnemyBase.takeDamage
        (EnemyBase.takeDamage EnemyBase.runner50 15
        EnemyBase.DamageType.physical).1 15 EnemyBase.DamageType.physical).1 15
        EnemyBase.DamageType.physical).1 15
        EnemyBase.DamageType.physical).1.enemyState
        = EnemyBase.EnemyState.dying) := by
  refine ⟨?_, ?_,
    by norm_num [EnemyBase.takeDamage, EnemyBase.runner50, max_def],
    by norm_num [EnemyBase.takeDamage, EnemyBase.runner50, max_def],
    by norm_num [EnemyBase.takeDamage, EnemyBase.runner50, max_def],
    by norm_num [EnemyBase.takeDamage, EnemyBase.runner50, max_def],
    by norm_num [EnemyBase.takeDamage, EnemyBase.runner50, max_def]⟩
  · unfold EnemyBase.takeDamage
    simp only [h]
    split_ifs with h1 h2
    · exact absurd rfl h1
    · rfl
    · rfl
  · unfold EnemyBase.takeDamage
    simp only [h]
    split_ifs with h1 h2
    · exact absurd rfl h1
    · rfl
    · rfl

/-- C1 witness: the theorem applied to the wave-1 runner with 15 damage. -/
theorem c1_takeDamage_formulas_witness :
    EnemyBase.runner50.enemyState = EnemyBase.EnemyState.moving ∧
    ((EnemyBase.takeDamage EnemyBase.runner50 15
        EnemyBase.DamageType.physical).1.currentHP
      = EnemyBase.runner50.currentHP - max 1 (15 - EnemyBase.runner50.armor)) :=
  ⟨rfl, (c1_takeDamage_formulas EnemyBase.runner50 15 rfl).1⟩

/-- C2 counterexample: a damage application can leave `currentHP` strictly
negative — a full-HP 50 runner hit with 60 physical damage ends at
`currentHP = -10`, outside `[0, maxHP]`. -/
theorem c2_counterexample :
    (EnemyBase.takeDamage EnemyBase.runner50 60
        EnemyBase.DamageType.physical).1.currentHP = -10 ∧
    ¬ (0 ≤ (EnemyBase.takeDamage EnemyBase.runner50 60
        EnemyBase.DamageType.physical).1.currentHP) := by
  constructor
  · norm_num [EnemyBase.takeDamage, EnemyBase.runner50, max_def]
  · norm_num [EnemyBase.takeDamage, EnemyBase.runner50, max_def]

/-- C2 (amended): for an Active attacker with `currentHP ≤ maxHP`,
non-negative damage amount and `resist ≤ 1`, `takeDamage` never raises
`currentHP` above `maxHP`, and whenever the attacker survives (`false`
returned) the resulting `currentHP` stays in `(0, maxHP]`; a lethal hit may
leave `currentHP` negative, but the attacker simultaneously leaves the
damageable state (`DYING`). -/
theorem c2_amended_hp_bounds (e : EnemyBase.Enemy) (t : EnemyBase.DamageType)
    (amount : ℚ) (hmv : e.enemyState = EnemyBase.EnemyState.moving)
    (hamt : 0 ≤ amount) (hres : e.resist ≤ 1) (hhp : e.currentHP ≤ e.maxHP) :
    ((EnemyBase.takeDamage e amount t).1.currentHP ≤ e.maxHP) ∧
    ((EnemyBase.takeDamage e amount t).2 = false →
      0 < (EnemyBase.takeDamage e amount t).1.currentHP ∧
      (EnemyBase.takeDamage e amount t).1.currentHP ≤ e.maxHP) ∧
    ((EnemyBase.takeDamage e amount t).2 = true →
      (EnemyBase.takeDamage e amount t).1.enemyState
        = EnemyBase.EnemyState.dying) := by
  cases t with
  | physical =>
    have hfd : (0:ℚ) ≤ max 1 (amount - e.armor) :=
      le_trans zero_le_one (le_max_left 1 (amount - e.armor))
    unfold EnemyBase.takeDamage
    simp only [hmv]
    split_ifs with h1 h2
    · exact absurd rfl h1
    · refine ⟨?_, ?_, fun _ => rfl⟩
      · show e.currentHP - max 1 (amount - e.armor) ≤ e.maxHP
        linarith
      · intro hfalse
        exact absurd hfalse (by simp)
    · push_neg at h2
      refine ⟨?_, fun _ => ⟨?_, ?_⟩, ?_⟩
      · show e.currentHP - max 1 (amount - e.armor) ≤ e.maxHP
        linarith
      · exact h2
      · show e.currentHP - max 1 (amount - e.armor) ≤ e.maxHP
        linarith
      · intro htrue
        exact absurd htrue (by simp)
  | magic =>
    have hfd : (0:ℚ) ≤ amount * (1 - e.resist) :=
      mul_nonneg hamt (by linarith)
    unfold EnemyBase.takeDamage
    simp only [hmv]
    split_ifs with h1 h2
    · exact absurd rfl h1
    · refine ⟨?_, ?_, fun _ => rfl⟩
      · show e.currentHP - amount * (1 - e.resist) ≤ e.maxHP
        linarith
      · intro hfalse
        exact absurd hfalse (by simp)
    · push_neg at h2
      refine ⟨?_, fun _ => ⟨?_, ?_⟩, ?_⟩
      · show e.currentHP - amount * (1 - e.resist) ≤ e.maxHP
        linarith
      · exact h2
      · show e.currentHP - amount * (1 - e.resist) ≤ e.maxHP
        linarith
      · intro htrue
        exact absurd htrue (by simp)

/-- C2 witness: the amended theorem applied to the runner with a surviving
15-damage physical hit. -/
theorem c2_amended_hp_bounds_witness :
    (EnemyBase.takeDamage EnemyBase.runner50 15
        EnemyBase.DamageType.physical).1.currentHP ≤ EnemyBase.runner50.maxHP ∧
    ((EnemyBase.takeDamage EnemyBase.runner50 15
        EnemyBase.DamageType.physical).2 = false →
      0 < (EnemyBase.takeDamage EnemyBase.runner50 15
        EnemyBase.DamageType.physical).1.currentHP ∧
      (EnemyBase.takeDamage EnemyBase.runner50 15
        EnemyBase.DamageType.physical).1.currentHP
        ≤ EnemyBase.runner50.maxHP) ∧
    ((EnemyBase.takeDamage EnemyBase.runner50 15
        EnemyBase.DamageType.physical).2 = true →
      (EnemyBase.takeDamage EnemyBase.runner50 15
        EnemyBase.DamageType.physical).1.enemyState
        = EnemyBase.EnemyState.dying) :=
  c2_amended_hp_bounds EnemyBase.runner50 EnemyBase.DamageType.physical 15
    rfl (by norm_num) (by norm_num [EnemyBase.runner50])
    (by norm_num [EnemyBase.runner50])

/-- C6: `spendGold` fails without mutation when `amount ≤ 0` or the balance
is short, otherwise deducts and returns `true`; `addGold` is a no-op for
`amount ≤ 0` and otherwise adds; a non-negative balance stays non-negative
through `spendGold`, and a successful `spendGold amount` followed by
`addGold amount` restores the original state exactly. -/
theorem c6_economy_spend_credit (s : Economy.State) (a : ℚ) :
    (a ≤ 0 ∨ s.gold < a → Economy.spendGold s a = (false, s)) ∧
    (0 < a → a ≤ s.gold →
      Economy.spendGold s a = (true, { gold := s.gold - a })) ∧
    (a ≤ 0 → Economy.addGold s a = s) ∧
    (0 < a → (Economy.addGold s a).gold = s.gold + a) ∧
    (0 ≤ s.gold → 0 ≤ ((Economy.spendGold s a).2).gold) ∧
    ((Economy.spendGold s a).1 = true →
      Economy.addGold (Economy.spendGold s a).2 a = s) := by
  refine ⟨?_, ?_, ?_, ?_, ?_, ?_⟩
  · intro h
    unfold Economy.spendGold
    split_ifs with h1 h2
    · rfl
    · rfl
    · rcases h with h | h
      · exact absurd h h1
      · exact absurd h h2
  · intro ha hle
    unfold Economy.spendGold
    split_ifs with h1 h2
    · linarith
    · linarith
    · rfl
  · intro h
    unfold Economy.addGold
    rw [if_pos h]
  · intro h
    unfold Economy.addGold
    rw [if_neg (by linarith)]
  · intro h
    unfold Economy.spendGold
    split_ifs with h1 h2
    · exact h
    · exact h
    · simp only []
      linarith
  · intro h
    unfold Economy.spendGold at h ⊢
    split_ifs at h with h1 h2
    unfold Economy.addGold
    simp only [if_neg h1, if_neg h2]
    have hg : s.gold - a + a = s.gold := by ring
    rw [hg]

/-- C6 witness: the theorem applied to a balance of 100 spending 30. -/
theorem c6_economy_spend_credit_witness :
    Economy.spendGold { gold := 100 } 30 = (true, { gold := 70 }) ∧
    Economy.addGold (Economy.spendGold { gold := 100 } 30).2 30
      = { gold := 100 } := by
  have h := c6_economy_spend_credit { gold := 100 } 30
  refine ⟨?_, h.2.2.2.2.2 ?_⟩
  · have := h.2.1 (by norm_num) (by norm_num)
    rw [this]
    norm_num
  · rw [h.2.1 (by norm_num) (by norm_num)]

/-- C7 (code bug): upgrading the arrow tower (`baseDamage = 15`) three times
from level 1 yields level 4 and damage `15 * (1 + 0.3 * 3) = 28.5`, not the
`15 * (1 + 0.5 * 3) = 37.5` that the repository's own balance configuration
(`TOWER_UPGRADE_BONUSES.damageIncrease = 0.5`, used by
`getTowerStatsAtLevel`) prescribes: `TowerBase.updateStats` hardcodes a 30%
per-level multiplier instead of the documented 50%. -/
theorem c7_upgrade_damage_divergence :
    (TowerBase.upgrade (TowerBase.upgrade (TowerBase.upgrade
        TowerBase.arrowTower).2).2).2.level = 4 ∧
    (TowerBase.upgrade (TowerBase.upgrade (TowerBase.upgrade
        TowerBase.arrowTower).2).2).2.damage = 57/2 ∧
    (TowerBase.upgrade (TowerBase.upgrade (TowerBase.upgrade
        TowerBase.arrowTower).2).2).2.damage ≠ 75/2 ∧
    getTowerStatsAtLevel_damage 15 4 = 75/2 := by
  refine ⟨?_, ?_, ?_, ?_⟩ <;>
    norm_num [TowerBase.upgrade, TowerBase.updateStats, TowerBase.arrowTower,
      TowerBase.mkTower, getTowerStatsAtLevel_damage,
      TOWER_UPGRADE_BONUSES_damageIncrease]

/-- C9 counterexample: with all 20 waves exhausted and no wave active,
`startNextWave` returns `false` but still mutates the scheduler state — the
wave counter advances from 20 to 21. -/
theorem c9_counterexample :
    (WaveManager.startNextWave WaveManager.exhaustedState).1 = false ∧
    (WaveManager.startNextWave WaveManager.exhaustedState).2.currentWave = 21 ∧
    WaveManager.exhaustedState.currentWave = 20 := by
  refine ⟨by decide, by decide, by decide⟩

/-- C9 (amended): `startNextWave` returns `false` and leaves the state fully
unchanged when a wave is in progress; when the waves are exhausted it
returns `false` and starts nothing, but increments the stored wave counter;
it returns `true` exactly when it starts a new wave (idle and waves
remaining), in which case the wave becomes active and the counter
advances. -/
theorem c9_startNextWave_spec (s : WaveManager.State) :
    (s.waveState.isActive = true → WaveManager.startNextWave s = (false, s)) ∧
    (s.waveState.isActive = false →
      WaveManager.TOTAL_WAVES < s.currentWave + 1 →
      WaveManager.startNextWave s
        = (false, { s with currentWave := s.currentWave + 1 })) ∧
    ((WaveManager.startNextWave s).1 = true ↔
      s.waveState.isActive = false
        ∧ s.currentWave + 1 ≤ WaveManager.TOTAL_WAVES) ∧
    ((WaveManager.startNextWave s).1 = true →
      (WaveManager.startNextWave s).2.waveState.isActive = true ∧
      (WaveManager.startNextWave s).2.currentWave = s.currentWave + 1) := by
  simp only [WaveManager.startNextWave]
  split_ifs with h1 h2
  · refine ⟨fun _ => rfl, ?_, ?_, ?_⟩
    · intro hfalse _
      rw [h1] at hfalse
      exact absurd hfalse (by simp)
    · simp [h1]
    · intro h
      simp at h
  · refine ⟨?_, fun _ _ => rfl, ?_, ?_⟩
    · intro htrue
      rw [htrue] at h1
      exact absurd rfl h1
    · simp
      intro _
      linarith
    · intro h
      simp at h
  · refine ⟨?_, ?_, ?_, fun _ => ⟨rfl, rfl⟩⟩
    · intro htrue
      rw [htrue] at h1
      exact absurd rfl h1
    · intro _ hgt
      linarith
    · simp only [true_iff]
      constructor
      · simpa using h1
      · linarith

/-- C9 witness: the amended theorem applied to the fresh scheduler (wave 1
starts) and to the exhausted scheduler. -/
theorem c9_startNextWave_spec_witness :
    ((WaveManager.startNextWave WaveManager.initial).1 = true ↔
      WaveManager.initial.waveState.isActive = false
        ∧ WaveManager.initial.currentWave + 1 ≤ WaveManager.TOTAL_WAVES) ∧
    ((WaveManager.startNextWave WaveManager.exhaustedState).1 = true ↔
      WaveManager.exhaustedState.waveState.isActive = false
        ∧ WaveManager.exhaustedState.currentWave + 1
            ≤ WaveManager.TOTAL_WAVES) :=
  ⟨(c9_startNextWave_spec WaveManager.initial).2.2.1,
   (c9_startNextWave_spec WaveManager.exhaustedState).2.2.1⟩

/-- C10: starting from a non-negative balance, any sequence of `addGold`,
`spendGold` and `setGold` operations keeps the gold balance non-negative,
and `setGold` with a negative argument clamps the stored balance to 0. -/
theorem c10_gold_never_negative (s : Economy.State) (ops : List Economy.Op)
    (h : 0 ≤ s.gold) :
    0 ≤ (Economy.runOps s ops).gold ∧
    (∀ q : ℚ, q < 0 → (Economy.setGold s q).gold = 0) := by
  constructor
  · induction ops generalizing s with
    | nil => exact h
    | cons op rest ih =>
      have hstep : Economy.runOps s (op :: rest)
          = Economy.runOps (Economy.applyOp s op) rest := rfl
      rw [hstep]
      exact ih (Economy.applyOp s op) (Economy.applyOp_nonneg s op h)
  · intro q hq
    unfold Economy.setGold
    simp only []
    exact max_eq_left (le_of_lt hq)

/-- `findIdx?` on a split list whose prefix all fails the predicate and whose
middle element passes finds the prefix length (shifted by the start index). -/
theorem findIdx?_split {α : Type} (p : α → Bool) (l1 : List α) (x : α)
    (l2 : List α) (h1 : ∀ a ∈ l1, p a = false) (hx : p x = true) :
    ∀ i : ℕ, List.findIdx? p (l1 ++ x :: l2) i = some (i + l1.length) := by
  induction l1 with
  | nil =>
    intro i
    simp [List.findIdx?_cons, hx]
  | cons a t ih =>
    intro i
    have ha : p a = false := h1 a (by simp)
    rw [List.cons_append, List.findIdx?_cons, ha]
    simp only [Bool.false_eq_true, if_false]
    rw [ih (fun b hb => h1 b (by simp [hb])) (i + 1)]
    congr 1
    simp only [List.length_cons]
    omega

/-- `modify` at the index right after a prefix rewrites exactly the middle
element. -/
theorem modify_split {α : Type} (f : α → α) (l1 : List α) (x : α)
    (l2 : List α) :
    List.modify f l1.length (l1 ++ x :: l2) = l1 ++ f x :: l2 := by
  induction l1 with
  | nil => simp [List.modify_zero_cons]
  | cons a t ih => simp [List.modify_succ_cons, ih]

/-- C8: applying a status effect of a kind the attacker already has merges
the two into the single existing entry, keeping the longer remaining
duration and the existing magnitude (never adding magnitudes); in
particular a 0.5 slow applied twice with durations 1000 ms then 2000 ms
leaves exactly one slow effect of magnitude 0.5 and duration 2000 ms. -/
theorem c8_status_merge (e : EnemyBase.Enemy) (eff : EnemyBase.StatusEffect)
    (now : ℚ) (l1 : List EnemyBase.StatusEffect) (ex : EnemyBase.StatusEffect)
    (l2 : List EnemyBase.StatusEffect)
    (hsplit : e.statusEffects = l1 ++ ex :: l2)
    (hl1 : ∀ a ∈ l1, a.kind ≠ eff.kind)
    (hex : ex.kind = eff.kind) :
    (EnemyBase.addStatusEffect e eff now).statusEffects
      = l1 ++ { ex with duration := max ex.duration eff.duration } :: l2 ∧
    (EnemyBase.addStatusEffect (EnemyBase.addStatusEffect EnemyBase.runner50
        ⟨EnemyBase.EffectKind.slow, 1/2, 1000, none, none⟩ 0)
        ⟨EnemyBase.EffectKind.slow, 1/2, 2000, none, none⟩ 0).statusEffects
      = [⟨EnemyBase.EffectKind.slow, 1/2, 2000, none, some 0⟩] := by
  constructor
  · unfold EnemyBase.addStatusEffect
    rw [hsplit]
    have hfind : List.findIdx? (fun ex2 => ex2.kind = eff.kind)
        (l1 ++ ex :: l2) 0 = some l1.length := by
      have := findIdx?_split (fun ex2 => decide (ex2.kind = eff.kind)) l1 ex l2
        (fun a ha => decide_eq_false (hl1 a ha)) (decide_eq_true hex) 0
      simpa using this
    rw [hfind]
    exact modify_split _ l1 ex l2
  · norm_num [EnemyBase.addStatusEffect, EnemyBase.runner50,
      List.findIdx?_cons, max_def]

/-- C8 witness: the merge theorem applied to a runner already carrying a
0.5-magnitude slow of 1000 ms when a 2000 ms slow of the same kind
arrives. -/
theorem c8_status_merge_witness :
    (EnemyBase.addStatusEffect
        { EnemyBase.runner50 with statusEffects :=
            [⟨EnemyBase.EffectKind.slow, 1/2, 1000, none, some 0⟩] }
        ⟨EnemyBase.EffectKind.slow, 1/2, 2000, none, none⟩ 0).statusEffects
      = [⟨EnemyBase.EffectKind.slow, 1/2, 2000, none, some 0⟩] := by
  have h := c8_status_merge
    { EnemyBase.runner50 with statusEffects :=
        [⟨EnemyBase.EffectKind.slow, 1/2, 1000, none, some 0⟩] }
    ⟨EnemyBase.EffectKind.slow, 1/2, 2000, none, none⟩ 0
    [] ⟨EnemyBase.EffectKind.slow, 1/2, 1000, none, some 0⟩ []
    rfl (by simp) rfl
  rw [h.1]
  norm_num [max_def]

/-- Characterization of a first-wins `reduce`: folding
`fun b e => if r b e then e else b` either keeps the seed (when nothing ever
beats the running best) or returns an element of the list that beats the
seed and everything before it and is unbeaten by everything after it. -/
theorem foldl_pick_spec {α : Type} (r : α → α → Prop) (f : α → α → α)
    (hf : ∀ b e, (r b e → f b e = e) ∧ (¬ r b e → f b e = b))
    (htr : ∀ x y z, r x y → r y z → r x z)
    (hmix : ∀ x y z, ¬ r x y → r x z → r y z) :
    ∀ (l : List α) (a : α),
      (l.foldl f a = a ∧ ∀ e ∈ l, ¬ r a e) ∨
      (∃ l1 res l2, l = l1 ++ res :: l2 ∧ l.foldl f a = res ∧
        (∀ e ∈ a :: l1, r e res) ∧ (∀ e ∈ l2, ¬ r res e)) := by
  intro l
  induction l with
  | nil =>
    intro a
    left
    exact ⟨rfl, by simp⟩
  | cons b t ih =>
    intro a
    by_cases hab : r a b
    · have hstep : (b :: t).foldl f a = t.foldl f b := by
        simp only [List.foldl_cons]
        rw [(hf a b).1 hab]
      rcases ih b with ⟨heq, hall⟩ | ⟨t1, res, t2, hsp, heq, hbefore, hafter⟩
      · right
        refine ⟨[], b, t, rfl, ?_, ?_, hall⟩
        · rw [hstep, heq]
        · intro e he
          have : e = a := by simpa using he
          rw [this]
          exact hab
      · right
        refine ⟨b :: t1, res, t2, by rw [hsp]; simp, ?_, ?_, hafter⟩
        · rw [hstep, heq]
        · intro e he
          rcases (by simpa using he : e = a ∨ e = b ∨ e ∈ t1) with
            he1 | he1 | he1
          · rw [he1]
            exact htr a b res hab (hbefore b (by simp))
          · rw [he1]
            exact hbefore b (by simp)
          · exact hbefore e (by simp [he1])
    · have hstep : (b :: t).foldl f a = t.foldl f a := by
        simp only [List.foldl_cons]
        rw [(hf a b).2 hab]
      rcases ih a with ⟨heq, hall⟩ | ⟨t1, res, t2, hsp, heq, hbefore, hafter⟩
      · left
        refine ⟨by rw [hstep, heq], ?_⟩
        intro e he
        rcases (by simpa using he : e = b ∨ e ∈ t) with he1 | he1
        · rw [he1]
          exact hab
        · exact hall e he1
      · right
        refine ⟨b :: t1, res, t2, by rw [hsp]; simp, by rw [hstep, heq], ?_, hafter⟩
        intro e he
        rcases (by simpa using he : e = a ∨ e = b ∨ e ∈ t1) with
          he1 | he1 | he1
        · rw [he1]
          exact hbefore a (by simp)
        · rw [he1]
          exact hmix a b res hab (hbefore a (by simp))
        · exact hbefore e (by simp [he1])

/-- The first-wins `reduce` seeded with the head of the list it folds over
returns an element optimizing the strict preference, and among optima the
earliest in list order. -/
theorem foldl_seed_spec {α : Type} (r : α → α → Prop) (f : α → α → α)
    (hf : ∀ b e, (r b e → f b e = e) ∧ (¬ r b e → f b e = b))
    (htr : ∀ x y z, r x y → r y z → r x z)
    (hmix : ∀ x y z, ¬ r x y → r x z → r y z)
    (hirr : ∀ x, ¬ r x x) (a : α) (rest : List α) :
    ∃ l1 l2, a :: rest = l1 ++ ((a :: rest).foldl f a) :: l2 ∧
      (∀ e ∈ l1, r e ((a :: rest).foldl f a)) ∧
      (∀ e ∈ a :: rest, ¬ r ((a :: rest).foldl f a) e) := by
  rcases foldl_pick_spec r f hf htr hmix (a :: rest) a with
    ⟨heq, hall⟩ | ⟨l1, res, l2, hsp, heq, hbefore, hafter⟩
  · refine ⟨[], rest, ?_, by simp, ?_⟩
    · simp [heq]
    · rw [heq]
      exact hall
  · rw [heq]
    refine ⟨l1, l2, hsp, fun e he => hbefore e (by simp [he]), ?_⟩
    intro e he
    rw [hsp] at he
    rcases (by simpa using he : e ∈ l1 ∨ e = res ∨ e ∈ l2) with he1 | he1 | he1
    · intro hre
      exact hirr res (htr res e res hre (hbefore e (by simp [he1])))
    · rw [he1]
      exact hirr res
    · exact hafter e he1

/-- The per-mode strict preference of the targeting `reduce` is transitive,
mixes with its negation, and is irreflexive. -/
theorem better_props (m : TargetingSystem.TargetingMode) (tx ty : ℝ) :
    (∀ x y z, TargetingSystem.better m tx ty y x →
      TargetingSystem.better m tx ty z y → TargetingSystem.better m tx ty z x) ∧
    (∀ x y z, ¬ TargetingSystem.better m tx ty y x →
      TargetingSystem.better m tx ty z x → TargetingSystem.better m tx ty z y) ∧
    (∀ x, ¬ TargetingSystem.better m tx ty x x) := by
  cases m <;>
    exact ⟨fun x y z h1 h2 => by
        unfold TargetingSystem.better at h1 h2 ⊢
        linarith,
      fun x y z h1 h2 => by
        unfold TargetingSystem.better at h1 h2 ⊢
        push_neg at h1
        linarith,
      fun x => by
        unfold TargetingSystem.better
        linarith⟩

/-- C4 (amended): for every targeting strategy, `findTarget` returns an
element of the in-range Active candidate list optimizing that strategy's key
(no candidate is strictly preferred over it), and whenever several
candidates tie, the one returned is the earliest in candidate-list order:
every candidate placed before it in the list is strictly worse. (The code
has no notion of enemy ids; ties go to array order, which coincides with
lowest id only when the array is sorted by id.) -/
theorem c4_targeting_characterization (tx ty range : ℝ)
    (enemies : List EnemyBase.Enemy) (mode : TargetingSystem.TargetingMode)
    (res : EnemyBase.Enemy)
    (h : TargetingSystem.findTarget tx ty range enemies mode = some res) :
    ∃ l1 l2,
      TargetingSystem.inRangeEnemies tx ty range enemies = l1 ++ res :: l2 ∧
      (∀ e ∈ l1, TargetingSystem.better mode tx ty res e) ∧
      (∀ e ∈ TargetingSystem.inRangeEnemies tx ty range enemies,
        ¬ TargetingSystem.better mode tx ty e res) := by
  obtain ⟨htr, hmix, hirr⟩ := better_props mode tx ty
  simp only [TargetingSystem.findTarget] at h
  cases hR : TargetingSystem.inRangeEnemies tx ty range enemies with
  | nil =>
    rw [hR] at h
    exact absurd h (by simp)
  | cons a rest =>
    rw [hR] at h
    simp only [Option.some.injEq] at h
    have key : ∀ f : EnemyBase.Enemy → EnemyBase.Enemy → EnemyBase.Enemy,
        (∀ b e, (TargetingSystem.better mode tx ty e b → f b e = e) ∧
          (¬ TargetingSystem.better mode tx ty e b → f b e = b)) →
        (a :: rest).foldl f a = res →
        ∃ l1 l2, a :: rest = l1 ++ res :: l2 ∧
          (∀ e ∈ l1, TargetingSystem.better mode tx ty res e) ∧
          (∀ e ∈ a :: rest, ¬ TargetingSystem.better mode tx ty e res) := by
      intro f hf heq
      have := foldl_seed_spec (fun b e => TargetingSystem.better mode tx ty e b)
        f hf (fun x y z h1 h2 => htr x y z h1 h2)
        (fun x y z h1 h2 => hmix x y z h1 h2) (fun x => hirr x) a rest
      rw [heq] at this
      exact this
    cases mode with
    | first =>
      exact key _ (fun b e => ⟨fun hb => if_pos hb, fun hb => if_neg hb⟩) h
    | closest =>
      exact key _ (fun b e => ⟨fun hb => if_pos hb, fun hb => if_neg hb⟩) h
    | strongest =>
      exact key _ (fun b e => ⟨fun hb => if_pos hb, fun hb => if_neg hb⟩) h
    | weakest =>
      exact key _ (fun b e => ⟨fun hb => if_pos hb, fun hb => if_neg hb⟩) h

/-- Concrete evaluation shared by the C4 counterexample and witness: with two
tied full-HP runners at the tower position listed as `[id 2, id 1]`, the
strongest-mode search keeps the first-listed enemy (id 2). -/
theorem findTarget_tie_eval :
    TargetingSystem.findTarget 0 0 100
      [TargetingSystem.tieEnemyA, TargetingSystem.tieEnemyB]
      TargetingSystem.TargetingMode.strongest
      = some TargetingSystem.tieEnemyA := by
  have h0 : Defender.distance 0 0 0 0 = 0 := by
    unfold Defender.distance
    norm_num
  have hfilter : TargetingSystem.inRangeEnemies 0 0 100
      [TargetingSystem.tieEnemyA, TargetingSystem.tieEnemyB]
      = [TargetingSystem.tieEnemyA, TargetingSystem.tieEnemyB] := by
    unfold TargetingSystem.inRangeEnemies
    simp [TargetingSystem.tieEnemyA, TargetingSystem.tieEnemyB,
      EnemyBase.isAlive, h0]
  simp only [TargetingSystem.findTarget, hfilter]
  simp [TargetingSystem.findStrongest, EnemyBase.getCurrentHP,
    TargetingSystem.tieEnemyA, TargetingSystem.tieEnemyB]

/-- C4 counterexample: the two candidates tie on the STRONGEST key and are
both in-range and Active, the lowest id present is 1, yet `findTarget`
returns the enemy with id 2 (the earlier array entry) — ties are broken by
array order, not by lowest id. -/
theorem c4_counterexample :
    TargetingSystem.findTarget 0 0 100
      [TargetingSystem.tieEnemyA, TargetingSystem.tieEnemyB]
      TargetingSystem.TargetingMode.strongest
      = some TargetingSystem.tieEnemyA ∧
    TargetingSystem.tieEnemyA.id = 2 ∧
    TargetingSystem.tieEnemyB.id = 1 ∧
    EnemyBase.getCurrentHP TargetingSystem.tieEnemyA
      = EnemyBase.getCurrentHP TargetingSystem.tieEnemyB ∧
    EnemyBase.isAlive TargetingSystem.tieEnemyA = true ∧
    EnemyBase.isAlive TargetingSystem.tieEnemyB = true ∧
    Defender.distance 0 0 TargetingSystem.tieEnemyB.x
      TargetingSystem.tieEnemyB.y ≤ 100 := by
  refine ⟨findTarget_tie_eval, rfl, rfl, rfl, rfl, rfl, ?_⟩
  have h0 : Defender.distance 0 0 TargetingSystem.tieEnemyB.x
      TargetingSystem.tieEnemyB.y = 0 := by
    unfold Defender.distance TargetingSystem.tieEnemyB
    norm_num
  rw [h0]
  norm_num

/-- C4 witness: the amended characterization applied to the concrete tied
pair in strongest mode. -/
theorem c4_targeting_characterization_witness :
    ∃ l1 l2,
      TargetingSystem.inRangeEnemies 0 0 100
        [TargetingSystem.tieEnemyA, TargetingSystem.tieEnemyB]
        = l1 ++ TargetingSystem.tieEnemyA :: l2 ∧
      (∀ e ∈ l1, TargetingSystem.better
        TargetingSystem.TargetingMode.strongest 0 0
        TargetingSystem.tieEnemyA e) ∧
      (∀ e ∈ TargetingSystem.inRangeEnemies 0 0 100
          [TargetingSystem.tieEnemyA, TargetingSystem.tieEnemyB],
        ¬ TargetingSystem.better TargetingSystem.TargetingMode.strongest 0 0 e
          TargetingSystem.tieEnemyA) :=
  c4_targeting_characterization 0 0 100
    [TargetingSystem.tieEnemyA, TargetingSystem.tieEnemyB]
    TargetingSystem.TargetingMode.strongest TargetingSystem.tieEnemyA
    findTarget_tie_eval

/-- `updateFollower` on a follower whose target waypoint is `null`
(`idx + 1` past the last waypoint) returns `null`. -/
theorem updFollower_none (wp : List (ℝ × ℝ)) (move : ℝ)
    (s : PathSystem.Follower) (h : wp.length ≤ s.idx + 1) :
    PathSystem.updFollower wp move s = none := by
  rw [PathSystem.updFollower]
  exact dif_pos h

/-- The one-step unfolding of `updateFollower` when a target waypoint
exists. -/
theorem updFollower_step (wp : List (ℝ × ℝ)) (move : ℝ)
    (s : PathSystem.Follower) (h : s.idx + 1 < wp.length) :
    PathSystem.updFollower wp move s =
      (if PathSystem.distTo s (wp.get ⟨s.idx + 1, h⟩) ≤ move then
        if wp.length - 1 ≤ s.idx + 1 then none
        else
          if 0 < move - PathSystem.distTo s (wp.get ⟨s.idx + 1, h⟩) then
            PathSystem.updFollower wp
              (move - PathSystem.distTo s (wp.get ⟨s.idx + 1, h⟩))
              (PathSystem.crossState s (wp.get ⟨s.idx + 1, h⟩))
          else
            some (PathSystem.crossState s (wp.get ⟨s.idx + 1, h⟩),
              PathSystem.angleTo s (wp.get ⟨s.idx + 1, h⟩))
      else
        some (PathSystem.moveState s (wp.get ⟨s.idx + 1, h⟩) move,
          PathSystem.angleTo s (wp.get ⟨s.idx + 1, h⟩))) := by
  rw [PathSystem.updFollower]
  rw [dif_neg (by omega : ¬ wp.length ≤ s.idx + 1)]

/-- Moving distance `d` along a segment of length `L = √(dx² + dy²)` leaves
a remaining vector of length `L - d`. -/
theorem dist_shift (dx dy d : ℝ) (h0 : 0 ≤ d)
    (hlt : d < Real.sqrt (dx * dx + dy * dy)) :
    Real.sqrt
        ((dx - dx / Real.sqrt (dx * dx + dy * dy) * d)
            * (dx - dx / Real.sqrt (dx * dx + dy * dy) * d)
          + (dy - dy / Real.sqrt (dx * dx + dy * dy) * d)
            * (dy - dy / Real.sqrt (dx * dx + dy * dy) * d))
      = Real.sqrt (dx * dx + dy * dy) - d := by
  have hS : (0:ℝ) ≤ dx * dx + dy * dy :=
    add_nonneg (mul_self_nonneg dx) (mul_self_nonneg dy)
  set L := Real.sqrt (dx * dx + dy * dy) with hL
  have hLpos : 0 < L := lt_of_le_of_lt h0 hlt
  have hLne : L ≠ 0 := ne_of_gt hLpos
  have hL2 : L * L = dx * dx + dy * dy := Real.mul_self_sqrt hS
  have key : (dx - dx / L * d) * (dx - dx / L * d)
      + (dy - dy / L * d) * (dy - dy / L * d)
      = (L - d) / L * ((L - d) / L) * (dx * dx + dy * dy) := by
    field_simp
    ring
  rw [key, ← hL2]
  have key2 : (L - d) / L * ((L - d) / L) * (L * L) = (L - d) * (L - d) := by
    field_simp
  rw [key2]
  exact Real.sqrt_mul_self (by linarith)

/-- Moving along a segment does not change the normalized direction to the
target. -/
theorem normalize_shift (dx dy d : ℝ) (h0 : 0 ≤ d)
    (hlt : d < Real.sqrt (dx * dx + dy * dy)) :
    normalize (dx - dx / Real.sqrt (dx * dx + dy * dy) * d)
        (dy - dy / Real.sqrt (dx * dx + dy * dy) * d)
      = normalize dx dy := by
  have hLpos : 0 < Real.sqrt (dx * dx + dy * dy) := lt_of_le_of_lt h0 hlt
  have hLd : 0 < Real.sqrt (dx * dx + dy * dy) - d := by linarith
  unfold normalize
  rw [dist_shift dx dy d h0 hlt]
  rw [if_neg (ne_of_gt hLd), if_neg (ne_of_gt hLpos)]
  set L := Real.sqrt (dx * dx + dy * dy) with hL
  have hLne : L ≠ 0 := ne_of_gt hLpos
  have hLdne : L - d ≠ 0 := ne_of_gt hLd
  refine Prod.ext ?_ ?_
  · show (dx - dx / L * d) / (L - d) = dx / L
    field_simp
    ring
  · show (dy - dy / L * d) / (L - d) = dy / L
    field_simp
    ring

/-- Moving along a segment does not change the `atan2` heading to the
target. -/
theorem atan2_shift (dx dy d : ℝ) (h0 : 0 ≤ d)
    (hlt : d < Real.sqrt (dx * dx + dy * dy)) :
    atan2 (dy - dy / Real.sqrt (dx * dx + dy * dy) * d)
        (dx - dx / Real.sqrt (dx * dx + dy * dy) * d)
      = atan2 dy dx := by
  set L := Real.sqrt (dx * dx + dy * dy) with hL
  have hLpos : 0 < L := lt_of_le_of_lt h0 hlt
  have hLne : L ≠ 0 := ne_of_gt hLpos
  have hk : 0 < (L - d) / L := div_pos (by linarith) hLpos
  have hx : dx - dx / L * d = (L - d) / L * dx := by
    field_simp
    ring
  have hy : dy - dy / L * d = (L - d) / L * dy := by
    field_simp
    ring
  rw [hx, hy]
  unfold atan2
  have hz : (⟨(L - d) / L * dx, (L - d) / L * dy⟩ : ℂ)
      = (((L - d) / L : ℝ) : ℂ) * ⟨dx, dy⟩ := by
    apply Complex.ext
    · simp
    · simp
  rw [hz]
  exact Complex.arg_real_mul _ hk

/-- The displaced components of `moveState`: position moves by
`(dx/L, dy/L) * d` toward the target. -/
theorem moveState_shift (s : PathSystem.Follower) (t : ℝ × ℝ) (d : ℝ)
    (h0 : 0 ≤ d) (hlt : d < PathSystem.distTo s t) :
    (t.1 - (PathSystem.moveState s t d).x
        = (t.1 - s.x) - (t.1 - s.x) / PathSystem.distTo s t * d) ∧
    (t.2 - (PathSystem.moveState s t d).y
        = (t.2 - s.y) - (t.2 - s.y) / PathSystem.distTo s t * d) ∧
    (PathSystem.moveState s t d).idx = s.idx ∧
    (PathSystem.moveState s t d).traveled = s.traveled + d := by
  have hz : PathSystem.distTo s t ≠ 0 := ne_of_gt (lt_of_le_of_lt h0 hlt)
  have hnorm : normalize (t.1 - s.x) (t.2 - s.y)
      = ((t.1 - s.x) / PathSystem.distTo s t,
         (t.2 - s.y) / PathSystem.distTo s t) := by
    unfold normalize PathSystem.distTo at hz ⊢
    rw [if_neg hz]
  refine ⟨?_, ?_, rfl, rfl⟩
  · show t.1 - (s.x + (normalize (t.1 - s.x) (t.2 - s.y)).1 * d) = _
    rw [hnorm]
    ring
  · show t.2 - (s.y + (normalize (t.1 - s.x) (t.2 - s.y)).2 * d) = _
    rw [hnorm]
    ring

/-- After a partial move, the remaining distance to the target shrinks by
exactly the moved distance. -/
theorem distTo_moveState (s : PathSystem.Follower) (t : ℝ × ℝ) (d : ℝ)
    (h0 : 0 ≤ d) (hlt : d < PathSystem.distTo s t) :
    PathSystem.distTo (PathSystem.moveState s t d) t
      = PathSystem.distTo s t - d := by
  obtain ⟨hx, hy, _, _⟩ := moveState_shift s t d h0 hlt
  show Real.sqrt
      ((t.1 - (PathSystem.moveState s t d).x)
          * (t.1 - (PathSystem.moveState s t d).x)
        + (t.2 - (PathSystem.moveState s t d).y)
          * (t.2 - (PathSystem.moveState s t d).y))
    = PathSystem.distTo s t - d
  rw [hx, hy]
  exact dist_shift (t.1 - s.x) (t.2 - s.y) d h0 hlt

/-- After a partial move, the heading to the target is unchanged. -/
theorem angleTo_moveState (s : PathSystem.Follower) (t : ℝ × ℝ) (d : ℝ)
    (h0 : 0 ≤ d) (hlt : d < PathSystem.distTo s t) :
    PathSystem.angleTo (PathSystem.moveState s t d) t
      = PathSystem.angleTo s t := by
  obtain ⟨hx, hy, _, _⟩ := moveState_shift s t d h0 hlt
  show atan2 (t.2 - (PathSystem.moveState s t d).y)
      (t.1 - (PathSystem.moveState s t d).x) = PathSystem.angleTo s t
  rw [hx, hy]
  exact atan2_shift (t.1 - s.x) (t.2 - s.y) d h0 hlt

/-- Crossing the waypoint from a partially moved state lands in the same
crossed state (the accumulated traveled distance telescopes). -/
theorem crossState_moveState (s : PathSystem.Follower) (t : ℝ × ℝ) (d : ℝ)
    (h0 : 0 ≤ d) (hlt : d < PathSystem.distTo s t) :
    PathSystem.crossState (PathSystem.moveState s t d) t
      = PathSystem.crossState s t := by
  obtain ⟨_, _, hidx, htr⟩ := moveState_shift s t d h0 hlt
  unfold PathSystem.crossState
  rw [distTo_moveState s t d h0 hlt, hidx, htr]
  have harith : s.traveled + d + (PathSystem.distTo s t - d)
      = s.traveled + PathSystem.distTo s t := by ring
  rw [harith]

/-- Two successive partial moves along the same segment compose to one. -/
theorem moveState_moveState (s : PathSystem.Follower) (t : ℝ × ℝ) (d d2 : ℝ)
    (h0 : 0 ≤ d) (hlt : d < PathSystem.distTo s t) :
    PathSystem.moveState (PathSystem.moveState s t d) t d2
      = PathSystem.moveState s t (d + d2) := by
  obtain ⟨hx, hy, hidx, htr⟩ := moveState_shift s t d h0 hlt
  have hz : PathSystem.distTo s t ≠ 0 := ne_of_gt (lt_of_le_of_lt h0 hlt)
  have hnorm : normalize (t.1 - s.x) (t.2 - s.y)
      = ((t.1 - s.x) / PathSystem.distTo s t,
         (t.2 - s.y) / PathSystem.distTo s t) := by
    unfold normalize PathSystem.distTo at hz ⊢
    rw [if_neg hz]
  have hnorm2 : normalize (t.1 - (PathSystem.moveState s t d).x)
      (t.2 - (PathSystem.moveState s t d).y)
      = normalize (t.1 - s.x) (t.2 - s.y) := by
    rw [hx, hy]
    exact normalize_shift (t.1 - s.x) (t.2 - s.y) d h0 hlt
  have hmx : (PathSystem.moveState s t d).x
      = s.x + (t.1 - s.x) / PathSystem.distTo s t * d := by
    show s.x + (normalize (t.1 - s.x) (t.2 - s.y)).1 * d = _
    rw [hnorm]
  have hmy : (PathSystem.moveState s t d).y
      = s.y + (t.2 - s.y) / PathSystem.distTo s t * d := by
    show s.y + (normalize (t.1 - s.x) (t.2 - s.y)).2 * d = _
    rw [hnorm]
  show (⟨(PathSystem.moveState s t d).idx,
      (PathSystem.moveState s t d).x
        + (normalize (t.1 - (PathSystem.moveState s t d).x)
            (t.2 - (PathSystem.moveState s t d).y)).1 * d2,
      (PathSystem.moveState s t d).y
        + (normalize (t.1 - (PathSystem.moveState s t d).x)
            (t.2 - (PathSystem.moveState s t d).y)).2 * d2,
      (PathSystem.moveState s t d).traveled + d2⟩ : PathSystem.Follower)
    = ⟨s.idx, s.x + (normalize (t.1 - s.x) (t.2 - s.y)).1 * (d + d2),
        s.y + (normalize (t.1 - s.x) (t.2 - s.y)).2 * (d + d2),
        s.traveled + (d + d2)⟩
  rw [hnorm2, hnorm, hidx, htr, hmx, hmy]
  congr 1 <;> ring

/-- Splitting a single `updateFollower` advance into two positive advances
gives the same result: the composition law behind C3. The bound `n` caps
the number of remaining waypoints for the induction. -/
theorem updFollower_split (wp : List (ℝ × ℝ)) :
    ∀ (n : ℕ) (s : PathSystem.Follower), wp.length - s.idx ≤ n →
      ∀ d1 d2 : ℝ, 0 < d1 → 0 < d2 →
      PathSystem.updFollower wp (d1 + d2) s
        = (PathSystem.updFollower wp d1 s).bind
            (fun r => PathSystem.updFollower wp d2 r.1) := by
  intro n
  induction n with
  | zero =>
    intro s hs d1 d2 h1 h2
    have hend : wp.length ≤ s.idx + 1 := by omega
    rw [updFollower_none wp (d1 + d2) s hend, updFollower_none wp d1 s hend]
    rfl
  | succ n ih =>
    intro s hs d1 d2 h1 h2
    by_cases htg : wp.length ≤ s.idx + 1
    · rw [updFollower_none wp (d1 + d2) s htg, updFollower_none wp d1 s htg]
      rfl
    · have hlt : s.idx + 1 < wp.length := by omega
      rw [updFollower_step wp (d1 + d2) s hlt, updFollower_step wp d1 s hlt]
      set t := wp.get ⟨s.idx + 1, hlt⟩ with htdef
      set D := PathSystem.distTo s t with hDdef
      by_cases hc1 : D ≤ d1
      · have hc12 : D ≤ d1 + d2 := by linarith
        rw [if_pos hc1, if_pos hc12]
        by_cases hend : wp.length - 1 ≤ s.idx + 1
        · rw [if_pos hend, if_pos hend]
          rfl
        · rw [if_neg hend, if_neg hend]
          by_cases hrem : 0 < d1 - D
          · have hremL : 0 < d1 + d2 - D := by linarith
            rw [if_pos hrem, if_pos hremL]
            have harg : d1 + d2 - D = d1 - D + d2 := by ring
            rw [harg]
            have hcross : wp.length - (PathSystem.crossState s t).idx ≤ n := by
              show wp.length - (s.idx + 1) ≤ n
              omega
            exact ih (PathSystem.crossState s t) hcross (d1 - D) d2 hrem h2
          · have hremL : 0 < d1 + d2 - D := by
              have hD1 : d1 ≤ D := by linarith
              have : D ≤ d1 := hc1
              linarith
            rw [if_neg hrem, if_pos hremL]
            have harg : d1 + d2 - D = d2 := by linarith
            rw [harg]
            rfl
      · rw [if_neg hc1]
        have hd1D : d1 < D := not_le.1 hc1
        have hd0 : 0 ≤ d1 := le_of_lt h1
        have hbind : (some (PathSystem.moveState s t d1, PathSystem.angleTo s t)).bind
            (fun r => PathSystem.updFollower wp d2 r.1)
            = PathSystem.updFollower wp d2 (PathSystem.moveState s t d1) := rfl
        rw [hbind]
        have hidx1 : (PathSystem.moveState s t d1).idx + 1 < wp.length := by
          show s.idx + 1 < wp.length
          exact hlt
        rw [updFollower_step wp d2 (PathSystem.moveState s t d1) hidx1]
        have hget : wp.get ⟨(PathSystem.moveState s t d1).idx + 1, hidx1⟩ = t := rfl
        rw [hget]
        have hdist1 : PathSystem.distTo (PathSystem.moveState s t d1) t = D - d1 := by
          rw [hDdef]
          exact distTo_moveState s t d1 hd0 (hDdef ▸ hd1D)
        rw [hdist1]
        rw [angleTo_moveState s t d1 hd0 (hDdef ▸ hd1D)]
        by_cases hc2 : D ≤ d1 + d2
        · have hc2r : D - d1 ≤ d2 := by linarith
          rw [if_pos hc2, if_pos hc2r]
          by_cases hend : wp.length - 1 ≤ s.idx + 1
          · rw [if_pos hend, if_pos (show wp.length - 1
              ≤ (PathSystem.moveState s t d1).idx + 1 from hend)]
          · rw [if_neg hend, if_neg (show ¬ wp.length - 1
              ≤ (PathSystem.moveState s t d1).idx + 1 from hend)]
            rw [crossState_moveState s t d1 hd0 (hDdef ▸ hd1D)]
            have hre : d2 - (D - d1) = d1 + d2 - D := by ring
            rw [hre]
        · have hc2r : ¬ (D - d1 ≤ d2) := by
            intro hcon
            exact hc2 (by linarith)
          rw [if_neg hc2, if_neg hc2r]
          rw [moveState_moveState s t d1 d2 hd0 (hDdef ▸ hd1D)]

/-- C3: for every path with at least two waypoints and every positive speed,
advancing a follower by one large delta gives exactly the same result
(follower state, final position and heading, or end-of-path) as advancing it
by any sequence of positive deltas with the same total — segment-boundary
crossings carry the remaining distance onto subsequent segments, so
correctness does not depend on tick granularity. -/
theorem c3_path_tick_granularity (wp : List (ℝ × ℝ)) (hwp : 2 ≤ wp.length)
    (speed : ℝ) (hspeed : 0 < speed) (δ0 : ℝ) (ds : List ℝ) (h0 : 0 < δ0)
    (hds : ∀ δ ∈ ds, 0 < δ) (s : PathSystem.Follower) :
    PathSystem.advanceBy wp speed (PathSystem.updateFollower wp s speed δ0) ds
      = PathSystem.updateFollower wp s speed (δ0 + ds.sum) := by
  induction ds generalizing δ0 with
  | nil =>
    show PathSystem.updateFollower wp s speed δ0
      = PathSystem.updateFollower wp s speed (δ0 + List.sum [])
    rw [List.sum_nil, add_zero]
  | cons δ rest ih =>
    have hδ : 0 < δ := hds δ (by simp)
    have hrest : ∀ x ∈ rest, 0 < x := fun x hx => hds x (by simp [hx])
    have hstep : PathSystem.advanceBy wp speed
        (PathSystem.updateFollower wp s speed δ0) (δ :: rest)
        = PathSystem.advanceBy wp speed
            ((PathSystem.updateFollower wp s speed δ0).bind
              (fun r => PathSystem.updateFollower wp r.1 speed δ)) rest := rfl
    rw [hstep]
    have hcomb : (PathSystem.updateFollower wp s speed δ0).bind
        (fun r => PathSystem.updateFollower wp r.1 speed δ)
        = PathSystem.updateFollower wp s speed (δ0 + δ) := by
      show (PathSystem.updFollower wp (speed * (δ0 / 1000)) s).bind
          (fun r => PathSystem.updFollower wp (speed * (δ / 1000)) r.1)
        = PathSystem.updFollower wp (speed * ((δ0 + δ) / 1000)) s
      have hmul : speed * ((δ0 + δ) / 1000)
          = speed * (δ0 / 1000) + speed * (δ / 1000) := by ring
      rw [hmul]
      exact (updFollower_split wp wp.length s (Nat.sub_le _ _)
        (speed * (δ0 / 1000)) (speed * (δ / 1000))
        (mul_pos hspeed (div_pos h0 (by norm_num)))
        (mul_pos hspeed (div_pos hδ (by norm_num)))).symm
    rw [hcomb]
    rw [ih (δ0 + δ) (by linarith) hrest]
    have hsum : δ0 + δ + rest.sum = δ0 + (δ :: rest).sum := by
      rw [List.sum_cons]
      ring
    rw [hsum]

/-- C3 witness: the theorem applied to the two-waypoint path
`[(0,0), (10,0)]` at speed 1, advancing 1000 ms then 1000 ms versus a single
2000 ms step. -/
theorem c3_path_tick_granularity_witness :
    2 ≤ ([((0:ℝ), (0:ℝ)), ((10:ℝ), (0:ℝ))] : List (ℝ × ℝ)).length ∧
    (0:ℝ) < 1 ∧ (0:ℝ) < 1000 ∧
    PathSystem.advanceBy [((0:ℝ), (0:ℝ)), ((10:ℝ), (0:ℝ))] 1
        (PathSystem.updateFollower [((0:ℝ), (0:ℝ)), ((10:ℝ), (0:ℝ))]
          ⟨0, 0, 0, 0⟩ 1 1000) [1000]
      = PathSystem.updateFollower [((0:ℝ), (0:ℝ)), ((10:ℝ), (0:ℝ))]
          ⟨0, 0, 0, 0⟩ 1 (1000 + ([1000] : List ℝ).sum) :=
  ⟨by simp, by norm_num, by norm_num,
    c3_path_tick_granularity [((0:ℝ), (0:ℝ)), ((10:ℝ), (0:ℝ))] (by simp)
      1 (by norm_num) 1000 [1000] (by norm_num)
      (by
        intro δ hδ
        simp at hδ
        rw [hδ]
        norm_num)
      ⟨0, 0, 0, 0⟩⟩

/-- A fold whose step fixes the accumulator on every list element leaves the
accumulator unchanged. -/
theorem foldl_fix {α β : Type} (g : β → α → β) (l : List α) (acc : β)
    (h : ∀ p ∈ l, g acc p = acc) : l.foldl g acc = acc := by
  induction l with
  | nil => rfl
  | cons a t ih =>
    have ha : g acc a = acc := h a (by simp)
    show List.foldl g (g acc a) t = acc
    rw [ha]
    exact ih (fun p hp => h p (by simp [hp]))

/-- Setting index `i` of a mapped range replaces just that function value. -/
theorem map_range_set {β : Type} (N i : ℕ) (f : ℕ → β) (v : β) (hi : i < N) :
    ((List.range N).map f).set i v
      = (List.range N).map (fun j => if j = i then v else f j) := by
  apply List.ext_getElem?
  intro n
  by_cases hn : n < N
  · by_cases hni : n = i
    · subst hni
      rw [List.getElem?_set_eq (by simp [hn]), List.getElem?_map,
        List.getElem?_range hn]
      simp
    · rw [List.getElem?_set_ne (fun hcon => hni hcon.symm), List.getElem?_map,
        List.getElem?_map, List.getElem?_range hn]
      simp [hni]
  · have hlen1 : (((List.range N).map f).set i v).length = N := by simp
    have hlen2 : ((List.range N).map
        (fun j => if j = i then v else f j)).length = N := by simp
    rw [List.getElem?_eq_none (by omega), List.getElem?_eq_none (by omega)]

/-- Enumerating a mapped range pairs each index with its function value. -/
theorem enum_map_range {β : Type} (N : ℕ) (f : ℕ → β) :
    ((List.range N).map f).enum = (List.range N).map (fun j => (j, f j)) := by
  apply List.ext_getElem?
  intro n
  rw [List.getElem?_enum, List.getElem?_map, List.getElem?_map]
  by_cases hn : n < N
  · rw [List.getElem?_range hn]
    simp
  · rw [List.getElem?_eq_none (by simp; omega)]
    rfl

/-- `takeDamage` never changes the enemy's identity, position, stats or
status effects — only `currentHP` and possibly the state. -/
theorem takeDamage_fields (e : EnemyBase.Enemy) (amount : ℚ)
    (t : EnemyBase.DamageType) :
    (EnemyBase.takeDamage e amount t).1.id = e.id ∧
    (EnemyBase.takeDamage e amount t).1.x = e.x ∧
    (EnemyBase.takeDamage e amount t).1.y = e.y ∧
    (EnemyBase.takeDamage e amount t).1.armor = e.armor ∧
    (EnemyBase.takeDamage e amount t).1.resist = e.resist := by
  cases t <;>
    (unfold EnemyBase.takeDamage
     simp only [ne_eq]
     split_ifs <;> exact ⟨rfl, rfl, rfl, rfl, rfl⟩)

/-- Distance between two points of the line `y = 0` spaced at multiples of
`d ≥ 0`. -/
theorem line_dist (a b : ℕ) (d : ℝ) (hab : a ≤ b) (hd : 0 ≤ d) :
    distance ((a : ℝ) * d) 0 ((b : ℝ) * d) 0 = ((b : ℝ) - (a : ℝ)) * d := by
  unfold distance
  have harith : ((b : ℝ) * d - (a : ℝ) * d) * ((b : ℝ) * d - (a : ℝ) * d)
      + (0 - 0) * (0 - 0)
      = (((b : ℝ) - (a : ℝ)) * d) * (((b : ℝ) - (a : ℝ)) * d) := by ring
  rw [harith]
  exact Real.sqrt_mul_self
    (mul_nonneg (sub_nonneg.2 (Nat.cast_le.2 hab)) hd)

/-- `findStep` skips an already-hit or dead enemy. -/
theorem findStep_skip (hit : List ℕ) (sx sy : ℝ)
    (acc : Option (ℕ × EnemyBase.Enemy) × ℝ) (p : ℕ × EnemyBase.Enemy)
    (h : p.1 ∈ hit ∨ ¬ EnemyBase.isAlive p.2) :
    DamageSystem.findStep hit sx sy acc p = acc := by
  unfold DamageSystem.findStep
  rw [if_pos h]

/-- `findStep` keeps the accumulator for a live unhit enemy that is not
strictly closer. -/
theorem findStep_far (hit : List ℕ) (sx sy : ℝ)
    (acc : Option (ℕ × EnemyBase.Enemy) × ℝ) (p : ℕ × EnemyBase.Enemy)
    (h1 : ¬ (p.1 ∈ hit ∨ ¬ EnemyBase.isAlive p.2))
    (h2 : ¬ (distance sx sy p.2.x p.2.y < acc.2)) :
    DamageSystem.findStep hit sx sy acc p = acc := by
  unfold DamageSystem.findStep
  rw [if_neg h1, if_neg h2]

/-- `findStep` records a live unhit enemy that is strictly closer. -/
theorem findStep_near (hit : List ℕ) (sx sy : ℝ)
    (acc : Option (ℕ × EnemyBase.Enemy) × ℝ) (p : ℕ × EnemyBase.Enemy)
    (h1 : ¬ (p.1 ∈ hit ∨ ¬ EnemyBase.isAlive p.2))
    (h2 : distance sx sy p.2.x p.2.y < acc.2) :
    DamageSystem.findStep hit sx sy acc p
      = (some p, distance sx sy p.2.x p.2.y) := by
  unfold DamageSystem.findStep
  rw [if_neg h1, if_pos h2]

/-- The `j`-th line enemy sits at abscissa `j * d`. -/
theorem lineEnemy_x (d : ℝ) (hp armor resist : ℚ) (j : ℕ) :
    (DamageSystem.lineEnemy d hp armor resist j).x = (j : ℝ) * d := rfl

/-- The line enemies sit on the axis `y = 0`. -/
theorem lineEnemy_y (d : ℝ) (hp armor resist : ℚ) (j : ℕ) :
    (DamageSystem.lineEnemy d hp armor resist j).y = 0 := rfl

/-- Line enemies start Active. -/
theorem isAlive_lineEnemy (d : ℝ) (hp armor resist : ℚ) (j : ℕ) :
    EnemyBase.isAlive (DamageSystem.lineEnemy d hp armor resist j) = true := rfl

/-- On the line configuration after `m` hops (hit set `{0..m}`, source at
enemy `m`), the nearest-unhit search finds exactly enemy `m + 1` at distance
`d` — or nothing when the line is exhausted. -/
theorem findNearest_line (N : ℕ) (d : ℝ) (hp armor resist bd : ℚ) (m : ℕ)
    (hd : 0 < d) (hd150 : d < 150) (hmN : m + 1 ≤ N) :
    DamageSystem.findNearestUnhit
        (DamageSystem.damagedLine N d hp armor resist bd m)
        (List.range (m + 1)) ((m : ℝ) * d) 0
      = if m + 1 < N
        then (some (m + 1, DamageSystem.lineEnemy d hp armor resist (m + 1)), d)
        else (none, 150) := by
  unfold DamageSystem.findNearestUnhit DamageSystem.damagedLine
  rw [enum_map_range]
  by_cases hlt : m + 1 < N
  · rw [if_pos hlt]
    have hNsplit : N = (m + 2) + (N - (m + 2)) := by omega
    have hr : List.range N = (List.range (m + 1) ++ [m + 1])
        ++ (List.range (N - (m + 2))).map (fun i => (m + 2) + i) := by
      conv_lhs => rw [hNsplit]
      rw [List.range_add]
      rw [show List.range (m + 2) = List.range (m + 1) ++ [m + 1] from
        List.range_succ (m + 1)]
    rw [hr, List.map_append, List.map_append, List.foldl_append,
      List.foldl_append]
    have hpre : List.foldl
        (DamageSystem.findStep (List.range (m + 1)) ((m : ℝ) * d) 0)
        (none, 150)
        ((List.range (m + 1)).map (fun j =>
          (j, if j = 0 then (EnemyBase.takeDamage
              (DamageSystem.lineEnemy d hp armor resist 0) bd
              EnemyBase.DamageType.physical).1
            else if j ≤ m then (EnemyBase.takeDamage
              (DamageSystem.lineEnemy d hp armor resist j)
              (DamageSystem.chainAmt bd (j - 1))
              EnemyBase.DamageType.magic).1
            else DamageSystem.lineEnemy d hp armor resist j)))
        = (none, 150) := by
      apply foldl_fix
      intro p hpmem
      obtain ⟨j, hj, rfl⟩ := List.mem_map.1 hpmem
      exact findStep_skip _ _ _ _ _ (Or.inl (by simpa using hj))
    rw [hpre]
    simp only [List.map_cons, List.map_nil, List.foldl_cons, List.foldl_nil]
    rw [if_neg (show ¬ (m + 1 = 0) by omega),
      if_neg (show ¬ (m + 1 ≤ m) by omega)]
    have hdist_mid : distance ((m : ℝ) * d) 0
        (DamageSystem.lineEnemy d hp armor resist (m + 1)).x
        (DamageSystem.lineEnemy d hp armor resist (m + 1)).y = d := by
      rw [lineEnemy_x, lineEnemy_y,
        line_dist m (m + 1) d (by omega) (le_of_lt hd)]
      push_cast
      ring
    have hmid : DamageSystem.findStep (List.range (m + 1)) ((m : ℝ) * d) 0
        (none, 150) (m + 1, DamageSystem.lineEnemy d hp armor resist (m + 1))
        = (some (m + 1, DamageSystem.lineEnemy d hp armor resist (m + 1)), d) := by
      have h1 : ¬ ((m + 1, DamageSystem.lineEnemy d hp armor resist (m + 1)).1
          ∈ List.range (m + 1)
          ∨ ¬ EnemyBase.isAlive
            (m + 1, DamageSystem.lineEnemy d hp armor resist (m + 1)).2) := by
        push_neg
        refine ⟨by simp, ?_⟩
        rw [isAlive_lineEnemy]
      have h2 : distance ((m : ℝ) * d) 0
          (m + 1, DamageSystem.lineEnemy d hp armor resist (m + 1)).2.x
          (m + 1, DamageSystem.lineEnemy d hp armor resist (m + 1)).2.y
          < ((none : Option (ℕ × EnemyBase.Enemy)), (150 : ℝ)).2 := by
        show distance ((m : ℝ) * d) 0
          (DamageSystem.lineEnemy d hp armor resist (m + 1)).x
          (DamageSystem.lineEnemy d hp armor resist (m + 1)).y < 150
        rw [hdist_mid]
        exact hd150
      rw [findStep_near _ _ _ _ _ h1 h2]
      rw [show (m + 1, DamageSystem.lineEnemy d hp armor resist (m + 1)).2
          = DamageSystem.lineEnemy d hp armor resist (m + 1) from rfl]
      rw [hdist_mid]
    rw [hmid]
    apply foldl_fix
    intro p hpmem
    obtain ⟨j, hj, rfl⟩ := List.mem_map.1 hpmem
    obtain ⟨i, hi, rfl⟩ := List.mem_map.1 hj
    rw [if_neg (show ¬ (m + 2 + i = 0) by omega),
      if_neg (show ¬ (m + 2 + i ≤ m) by omega)]
    apply findStep_far
    · push_neg
      refine ⟨by simp; omega, ?_⟩
      rw [isAlive_lineEnemy]
    · show ¬ (distance ((m : ℝ) * d) 0
        (DamageSystem.lineEnemy d hp armor resist (m + 2 + i)).x
        (DamageSystem.lineEnemy d hp armor resist (m + 2 + i)).y < d)
      rw [lineEnemy_x, lineEnemy_y,
        line_dist m (m + 2 + i) d (by omega) (le_of_lt hd)]
      push_neg
      have hcast : (m : ℝ) + 2 ≤ ((m + 2 + i : ℕ) : ℝ) := by
        push_cast
        linarith [Nat.cast_nonneg (α := ℝ) i]
      nlinarith [hd, hcast]
  · rw [if_neg hlt]
    have hNeq : N = m + 1 := by omega
    rw [hNeq]
    apply foldl_fix
    intro p hpmem
    obtain ⟨j, hj, rfl⟩ := List.mem_map.1 hpmem
    exact findStep_skip _ _ _ _ _ (Or.inl (by simpa using hj))

/-- The hop loop with no hops left returns the enemies unchanged. -/
theorem chainLoop_zero (es : List EnemyBase.Enemy) (hit : List ℕ) (sx sy : ℝ)
    (cd : ℚ) (i : ℕ) :
    DamageSystem.chainLoop es hit sx sy cd i 0 = es := rfl

/-- One unfolding of the hop loop. -/
theorem chainLoop_succ (es : List EnemyBase.Enemy) (hit : List ℕ) (sx sy : ℝ)
    (cd : ℚ) (i fuel : ℕ) :
    DamageSystem.chainLoop es hit sx sy cd i (fuel + 1)
      = (match (DamageSystem.findNearestUnhit es hit sx sy).1 with
        | none => es
        | some (j, ne) =>
          DamageSystem.chainLoop
            (es.set j ((EnemyBase.takeDamage ne (cd * (9/10) ^ i)
              EnemyBase.DamageType.magic).1))
            (hit ++ [j]) ne.x ne.y cd (i + 1) fuel) := rfl

/-- Damaging enemy `m + 1` of the `m`-hop line state with its hop amount
yields the `(m + 1)`-hop line state. -/
theorem set_damagedLine (N : ℕ) (d : ℝ) (hp armor resist bd : ℚ) (m : ℕ)
    (hm : m + 1 < N) :
    (DamageSystem.damagedLine N d hp armor resist bd m).set (m + 1)
        ((EnemyBase.takeDamage (DamageSystem.lineEnemy d hp armor resist (m + 1))
          ((bd * (6/10)) * (9/10) ^ m) EnemyBase.DamageType.magic).1)
      = DamageSystem.damagedLine N d hp armor resist bd (m + 1) := by
  unfold DamageSystem.damagedLine
  rw [map_range_set N (m + 1) _ _ hm]
  apply List.map_congr_left
  intro j hj
  by_cases hj0 : j = m + 1
  · subst hj0
    rw [if_pos rfl, if_neg (show ¬ (m + 1 = 0) by omega),
      if_pos (le_refl (m + 1))]
    rw [show m + 1 - 1 = m from by omega]
    rfl
  · rw [if_neg hj0]
    by_cases hz : j = 0
    · rw [if_pos hz, if_pos hz]
    · rw [if_neg hz, if_neg hz]
      by_cases hle : j ≤ m
      · rw [if_pos hle, if_pos (by omega)]
      · rw [if_neg hle, if_neg (by omega)]

/-- The hop loop on the line: starting after `m` hops with `fuel` hops
remaining, the chain walks down the line and ends with
`min (N - 1) (m + fuel)` hops done. -/
theorem chainLoop_line (N : ℕ) (d : ℝ) (hp armor resist bd : ℚ)
    (hd : 0 < d) (hd150 : d < 150) :
    ∀ (fuel m : ℕ), m + 1 ≤ N →
    DamageSystem.chainLoop (DamageSystem.damagedLine N d hp armor resist bd m)
        (List.range (m + 1)) ((m : ℝ) * d) 0 (bd * (6/10)) m fuel
      = DamageSystem.damagedLine N d hp armor resist bd
          (min (N - 1) (m + fuel)) := by
  intro fuel
  induction fuel with
  | zero =>
    intro m hm
    rw [chainLoop_zero]
    rw [show min (N - 1) (m + 0) = m from by omega]
  | succ fuel ih =>
    intro m hm
    rw [chainLoop_succ]
    rw [findNearest_line N d hp armor resist bd m hd hd150 hm]
    by_cases hlt : m + 1 < N
    · rw [if_pos hlt]
      show DamageSystem.chainLoop
          ((DamageSystem.damagedLine N d hp armor resist bd m).set (m + 1)
            ((EnemyBase.takeDamage
              (DamageSystem.lineEnemy d hp armor resist (m + 1))
              ((bd * (6/10)) * (9/10) ^ m) EnemyBase.DamageType.magic).1))
          (List.range (m + 1) ++ [m + 1])
          (DamageSystem.lineEnemy d hp armor resist (m + 1)).x
          (DamageSystem.lineEnemy d hp armor resist (m + 1)).y
          (bd * (6/10)) (m + 1) fuel
        = DamageSystem.damagedLine N d hp armor resist bd
            (min (N - 1) (m + (fuel + 1)))
      rw [set_damagedLine N d hp armor resist bd m hlt]
      rw [show List.range (m + 1) ++ [m + 1] = List.range (m + 2) from
        (List.range_succ (m + 1)).symm]
      rw [lineEnemy_x, lineEnemy_y]
      have hrec := ih (m + 1) (by omega)
      rw [show ((m + 1 : ℕ) : ℝ) = ((m + 1 : ℕ) : ℝ) from rfl] at hrec
      rw [hrec]
      rw [show min (N - 1) (m + 1 + fuel) = min (N - 1) (m + (fuel + 1))
        from by omega]
    · rw [if_neg hlt]
      show DamageSystem.damagedLine N d hp armor resist bd m
        = DamageSystem.damagedLine N d hp armor resist bd
            (min (N - 1) (m + (fuel + 1)))
      rw [show min (N - 1) (m + (fuel + 1)) = m from by omega]

/-- A chain-special projectile hit on the head of the line, fully resolved:
the direct physical hit plus `min (N - 1, maxChains)` decaying magic hops
down the line. -/
theorem applyDamageChain_line (N : ℕ) (d : ℝ) (hp armor resist bd v : ℚ)
    (hN : 1 ≤ N) (hd : 0 < d) (hd150 : d < 150) :
    DamageSystem.applyDamageChain (DamageSystem.lineEnemies N d hp armor resist)
        0 (DamageSystem.lineEnemy d hp armor resist 0) bd v
      = DamageSystem.damagedLine N d hp armor resist bd
          (min (N - 1) ((Int.floor v).toNat)) := by
  unfold DamageSystem.applyDamageChain DamageSystem.applyChainLightning
  have hset : (DamageSystem.lineEnemies N d hp armor resist).set 0
      ((EnemyBase.takeDamage (DamageSystem.lineEnemy d hp armor resist 0) bd
        EnemyBase.DamageType.physical).1)
      = DamageSystem.damagedLine N d hp armor resist bd 0 := by
    unfold DamageSystem.lineEnemies DamageSystem.damagedLine
    rw [map_range_set N 0 _ _ (by omega)]
    apply List.map_congr_left
    intro j hj
    by_cases hz : j = 0
    · subst hz
      rw [if_pos rfl, if_pos rfl]
    · rw [if_neg hz, if_neg hz, if_neg (show ¬ j ≤ 0 by omega)]
  rw [hset]
  have hx : ((EnemyBase.takeDamage (DamageSystem.lineEnemy d hp armor resist 0)
      bd EnemyBase.DamageType.physical).1).x = ((0 : ℕ) : ℝ) * d := by
    rw [(takeDamage_fields _ _ _).2.1]
    exact lineEnemy_x d hp armor resist 0
  have hy : ((EnemyBase.takeDamage (DamageSystem.lineEnemy d hp armor resist 0)
      bd EnemyBase.DamageType.physical).1).y = 0 := by
    rw [(takeDamage_fields _ _ _).2.2.1]
    exact lineEnemy_y d hp armor resist 0
  rw [hx, hy]
  have hrange : ([0] : List ℕ) = List.range 1 := by decide
  rw [hrange]
  have hmain := chainLoop_line N d hp armor resist bd hd hd150
    ((Int.floor v).toNat) 0 (by omega)
  rw [show (0 : ℕ) + (Int.floor v).toNat = (Int.floor v).toNat from by omega]
    at hmain
  exact hmain

/-- `takeDamage` on an Active attacker always subtracts the effective damage
from `currentHP` (both for a surviving and for a killed target). -/
theorem takeDamage_hp (e : EnemyBase.Enemy) (amount : ℚ)
    (hmv : e.enemyState = EnemyBase.EnemyState.moving) :
    ((EnemyBase.takeDamage e amount EnemyBase.DamageType.physical).1.currentHP
      = e.currentHP - max 1 (amount - e.armor)) ∧
    ((EnemyBase.takeDamage e amount EnemyBase.DamageType.magic).1.currentHP
      = e.currentHP - amount * (1 - e.resist)) := by
  constructor
  · unfold EnemyBase.takeDamage
    simp only [hmv]
    split_ifs with h1 h2
    · exact absurd rfl h1
    · rfl
    · rfl
  · unfold EnemyBase.takeDamage
    simp only [hmv]
    split_ifs with h1 h2
    · exact absurd rfl h1
    · rfl
    · rfl

/-- Entry lookup in the damaged line. -/
theorem damagedLine_getD (N : ℕ) (d : ℝ) (hp armor resist bd : ℚ)
    (m j : ℕ) (hj : j < N) (dflt : EnemyBase.Enemy) :
    (DamageSystem.damagedLine N d hp armor resist bd m).getD j dflt
      = (if j = 0 then (EnemyBase.takeDamage
            (DamageSystem.lineEnemy d hp armor resist 0) bd
            EnemyBase.DamageType.physical).1
         else if j ≤ m then (EnemyBase.takeDamage
            (DamageSystem.lineEnemy d hp armor resist j)
            (DamageSystem.chainAmt bd (j - 1)) EnemyBase.DamageType.magic).1
         else DamageSystem.lineEnemy d hp armor resist j) := by
  unfold DamageSystem.damagedLine
  rw [List.getD_eq_getElem?_getD, List.getElem?_map, List.getElem?_range hj]
  rfl

/-- C5: with `N` Active attackers in a line spaced `0 < d < 150`
(just under `chainRange`) apart, resolving a chain projectile hit on the
first of them damages exactly `min(N, maxChains + 1)` of them
(`maxChains = ⌊special.value⌋`): the hop at line position `j` receives
exactly `baseDamage * 0.6 * 0.9 ^ (j-1)` as magic damage, every enemy
beyond the chain is untouched, and the per-hop damage amount is strictly
decreasing. -/
theorem c5_chain_lightning (N : ℕ) (d : ℝ) (hp armor resist bd v : ℚ)
    (hN : 1 ≤ N) (hd : 0 < d) (hd150 : d < 150) (hbd : 0 < bd)
    (hres : resist < 1) :
    (∀ j, 1 ≤ j → j < min N ((Int.floor v).toNat + 1) →
      (DamageSystem.applyDamageChain
          (DamageSystem.lineEnemies N d hp armor resist) 0
          (DamageSystem.lineEnemy d hp armor resist 0) bd v).getD j
          (DamageSystem.lineEnemy d hp armor resist 0)
        = (EnemyBase.takeDamage (DamageSystem.lineEnemy d hp armor resist j)
            (DamageSystem.chainAmt bd (j - 1))
            EnemyBase.DamageType.magic).1) ∧
    (∀ j, 1 ≤ j → j < min N ((Int.floor v).toNat + 1) →
      ((DamageSystem.applyDamageChain
          (DamageSystem.lineEnemies N d hp armor resist) 0
          (DamageSystem.lineEnemy d hp armor resist 0) bd v).getD j
          (DamageSystem.lineEnemy d hp armor resist 0)).currentHP
        = hp - DamageSystem.chainAmt bd (j - 1) * (1 - resist)) ∧
    (∀ j, j < min N ((Int.floor v).toNat + 1) →
      ((DamageSystem.applyDamageChain
          (DamageSystem.lineEnemies N d hp armor resist) 0
          (DamageSystem.lineEnemy d hp armor resist 0) bd v).getD j
          (DamageSystem.lineEnemy d hp armor resist 0)).currentHP < hp) ∧
    (∀ j, min N ((Int.floor v).toNat + 1) ≤ j → j < N →
      (DamageSystem.applyDamageChain
          (DamageSystem.lineEnemies N d hp armor resist) 0
          (DamageSystem.lineEnemy d hp armor resist 0) bd v).getD j
          (DamageSystem.lineEnemy d hp armor resist 0)
        = DamageSystem.lineEnemy d hp armor resist j) ∧
    (∀ i : ℕ, DamageSystem.chainAmt bd (i + 1) < DamageSystem.chainAmt bd i) := by
  have hmain := applyDamageChain_line N d hp armor resist bd v hN hd hd150
  have hamtpos : ∀ i : ℕ, 0 < DamageSystem.chainAmt bd i := by
    intro i
    unfold DamageSystem.chainAmt
    have h1 : (0:ℚ) < bd * (6/10) := by positivity
    have h2 : (0:ℚ) < (9/10 : ℚ) ^ i := by positivity
    positivity
  refine ⟨?_, ?_, ?_, ?_, ?_⟩
  · intro j h1 h2
    rw [hmain, damagedLine_getD N d hp armor resist bd _ j (by omega) _]
    rw [if_neg (show ¬ j = 0 by omega), if_pos (show j ≤ min (N - 1)
      ((Int.floor v).toNat) by omega)]
  · intro j h1 h2
    rw [hmain, damagedLine_getD N d hp armor resist bd _ j (by omega) _]
    rw [if_neg (show ¬ j = 0 by omega), if_pos (show j ≤ min (N - 1)
      ((Int.floor v).toNat) by omega)]
    rw [(takeDamage_hp (DamageSystem.lineEnemy d hp armor resist j)
      (DamageSystem.chainAmt bd (j - 1)) rfl).2]
    rfl
  · intro j h2
    rw [hmain, damagedLine_getD N d hp armor resist bd _ j (by omega) _]
    by_cases hz : j = 0
    · rw [if_pos hz]
      rw [(takeDamage_hp (DamageSystem.lineEnemy d hp armor resist 0) bd rfl).1]
      show hp - max 1 (bd - armor) < hp
      linarith [le_max_left (1:ℚ) (bd - armor)]
    · rw [if_neg hz]
      rw [if_pos (show j ≤ min (N - 1) ((Int.floor v).toNat) by omega)]
      rw [(takeDamage_hp (DamageSystem.lineEnemy d hp armor resist j)
        (DamageSystem.chainAmt bd (j - 1)) rfl).2]
      have hpos : 0 < DamageSystem.chainAmt bd (j - 1) * (1 - resist) :=
        mul_pos (hamtpos (j - 1)) (by linarith)
      show hp - DamageSystem.chainAmt bd (j - 1)
        * (1 - (DamageSystem.lineEnemy d hp armor resist j).resist) < hp
      have hre : (DamageSystem.lineEnemy d hp armor resist j).resist
          = resist := rfl
      rw [hre]
      linarith
  · intro j h1 h2
    rw [hmain, damagedLine_getD N d hp armor resist bd _ j h2 _]
    rw [if_neg (show ¬ j = 0 by omega),
      if_neg (show ¬ j ≤ min (N - 1) ((Int.floor v).toNat) by omega)]
  · intro i
    have h1 := hamtpos i
    unfold DamageSystem.chainAmt at h1 ⊢
    rw [pow_succ]
    nlinarith [h1]

/-- C5 witness: four runners spaced 100 px apart hit by a tesla-like chain
projectile (`baseDamage 10`, `value 3`). -/
theorem c5_chain_lightning_witness :
    (1:ℕ) ≤ 4 ∧ (0:ℝ) < 100 ∧ (100:ℝ) < 150 ∧ (0:ℚ) < 10 ∧ (0:ℚ) < 1 ∧
    (∀ i : ℕ, DamageSystem.chainAmt 10 (i + 1) < DamageSystem.chainAmt 10 i) ∧
    (∀ j, 1 ≤ j → j < min 4 ((Int.floor (3:ℚ)).toNat + 1) →
      ((DamageSystem.applyDamageChain (DamageSystem.lineEnemies 4 100 50 0 0) 0
          (DamageSystem.lineEnemy 100 50 0 0 0) 10 3).getD j
          (DamageSystem.lineEnemy 100 50 0 0 0)).currentHP
        = 50 - DamageSystem.chainAmt 10 (j - 1) * (1 - 0)) :=
  ⟨by norm_num, by norm_num, by norm_num, by norm_num, by norm_num,
   (c5_chain_lightning 4 100 50 0 0 10 3 (by norm_num) (by norm_num)
     (by norm_num) (by norm_num) (by norm_num)).2.2.2.2,
   (c5_chain_lightning 4 100 50 0 0 10 3 (by norm_num) (by norm_num)
     (by norm_num) (by norm_num) (by norm_num)).2.1⟩

/-- C10 witness: a concrete operation sequence from balance 100, including a
negative `setGold`. -/
theorem c10_gold_never_negative_witness :
    0 ≤ (Economy.runOps { gold := 100 }
      [Economy.Op.spend 30, Economy.Op.add 5, Economy.Op.set (-7),
       Economy.Op.spend 200]).gold ∧
    (∀ q : ℚ, q < 0 → (Economy.setGold { gold := 100 } q).gold = 0) :=
  c10_gold_never_negative { gold := 100 } _ (by norm_num)

end Defender
